import Mathlib

/-!
Verification of the pynguin statement-construction engine
(`pynguin/testcase/testfactory.py` and
`pynguin/testcase/variablereference.py`) against its specification.

The engine is embedded shallowly: Python's mutable test case, the
process-wide randomness source and the configuration become explicit
state threaded through every function; exceptions become an error
result; the unbounded mutual recursion of the factory functions is
made total with an explicit fuel argument (a `timeout` result marks
fuel exhaustion, which is a modelling artifact and never a behavior
of the source).
-/

namespace Pynguin

/-- Non-union Python types as the engine distinguishes them: the four
primitive types (`int`, `float`, `bool`, `str`) and user classes
(identified by a number).  `typing.Union` flattens nested unions, so
union arms are always of this shape. -/
inductive SimpleType : Type
  | int : SimpleType
  | float : SimpleType
  | bool : SimpleType
  | str : SimpleType
  | cls : Nat → SimpleType
  deriving DecidableEq, Repr

/-- A Python type annotation as inspected by the engine: a simple type
or a union of simple types (`is_union_type` / `get_args`). -/
inductive PyType : Type
  | simple : SimpleType → PyType
  | union : List SimpleType → PyType
  deriving DecidableEq, Repr

/-- Modelled from the spec: `PRIMITIVES` of `pynguin.utils.type_utils`,
the fixed set of primitive types `{int, float, bool, str}`. -/
def PRIMITIVES : List PyType :=
  [.simple .int, .simple .float, .simple .bool, .simple .str]

/-- Modelled from the spec: `is_primitive_type` of
`pynguin.utils.type_utils`; true exactly on the four primitive types. -/
def is_primitive_type : Option PyType → Bool
  | some (.simple .int) => true
  | some (.simple .float) => true
  | some (.simple .bool) => true
  | some (.simple .str) => true
  | _ => false

/-- `typing_inspect.is_union_type` on an optional type annotation. -/
def is_union_type : Option PyType → Bool
  | some (.union _) => true
  | _ => false

/-- The variants of statements the engine constructs.  Owned variable
references (arguments, and the receiver of methods and fields) are
recorded by the identity of their defining statement. -/
inductive StmtKind : Type
  | constructorCall : Nat → List Nat → StmtKind
  | methodCall : Nat → Nat → List Nat → StmtKind
  | functionCall : Nat → List Nat → StmtKind
  | fieldAccess : Nat → Nat → StmtKind
  | primitiveLit : PyType → StmtKind
  | noneLit : StmtKind
  deriving DecidableEq, Repr

/-- All variable references a statement owns: its arguments and, for
method calls and field accesses, its receiver. -/
def StmtKind.ownedRefs : StmtKind → List Nat
  | .constructorCall _ args => args
  | .methodCall _ callee args => callee :: args
  | .functionCall _ args => args
  | .fieldAccess _ owner => [owner]
  | .primitiveLit _ => []
  | .noneLit => []

/-- One statement of a test case together with the variable reference
it defines: the reference's identity (`retId`), its recorded variable
type and its distance (recursion depth at creation). -/
structure StmtRec : Type where
  kind : StmtKind
  retId : Nat
  retType : Option PyType
  distance : Nat
  deriving DecidableEq, Repr

/-- `GenericConstructor`: constructs values of class `ownerClass`;
`parameters` is the ordered parameter-type list of its inferred
signature. -/
structure GenericConstructor : Type where
  ctorId : Nat
  ownerClass : Nat
  parameters : List (Option PyType)
  deriving DecidableEq, Repr

/-- `GenericMethod`: the receiver is of type `owner`. -/
structure GenericMethod : Type where
  methodId : Nat
  owner : PyType
  parameters : List (Option PyType)
  retType : Option PyType
  deriving DecidableEq, Repr

/-- `GenericFunction`. -/
structure GenericFunction : Type where
  funcId : Nat
  parameters : List (Option PyType)
  retType : Option PyType
  deriving DecidableEq, Repr

/-- `GenericField`: accessed on a receiver of type `owner`. -/
structure GenericField : Type where
  fieldId : Nat
  owner : PyType
  fieldType : Option PyType
  deriving DecidableEq, Repr

/-- `GenericAccessibleObject`, the closed variant over constructor,
method, function and field. -/
inductive GAO : Type
  | ctorObj : GenericConstructor → GAO
  | methodObj : GenericMethod → GAO
  | funcObj : GenericFunction → GAO
  | fieldObj : GenericField → GAO
  deriving DecidableEq, Repr

/-- Modelled from the spec: the accessible-object catalog
(`TestCluster`): per type, the generators that produce it
(`get_generators_for`, possibly empty), and the list of keys of
`generators` used by the random-unrelated-type fallback. -/
structure TestCluster : Type where
  generators : List (PyType × List GAO)
  deriving Repr

/-- `TestCluster.get_generators_for`: the generators recorded for a
type, or the empty set. -/
def TestCluster.get_generators_for (c : TestCluster) (t : PyType) : List GAO :=
  (c.generators.lookup t).getD []

/-- Modelled from the spec: the process-wide randomness source, as the
two streams the engine draws from — uniform floats in `[0,1)`
(`next_float`) and indices for uniform choice over a sequence
(`choice`).  A stream is a list consumed from the front; an exhausted
stream yields `0`. -/
structure Rand : Type where
  floats : List Rat
  choices : List Nat
  deriving DecidableEq, Repr

/-- Modelled from the spec: the configuration surface the engine reads
(`config.INSTANCE`). -/
structure Config : Type where
  max_recursion : Nat
  primitive_reuse_probability : Rat
  object_reuse_probability : Rat
  none_probability : Rat
  deriving Repr

/-- The ambient collaborators of one construction request: the
read-only configuration and the accessible-object catalog. -/
structure Env : Type where
  cfg : Config
  cluster : TestCluster

/-- The mutable state of one construction request: the test case (an
ordered list of statements), a counter supplying fresh identities for
newly created variable references, and the randomness source. -/
structure St : Type where
  stmts : List StmtRec
  nextId : Nat
  rand : Rand
  deriving DecidableEq, Repr

/-- The single construction-failure kind
(`ConstructionFailedException`), with the structured content of the
messages the source formats; `indexError` models Python's exception on
a uniform choice over an empty sequence, and `assertionFailed` a
failed `assert`. -/
inductive Err : Type
  | maxRecursionDepth : Err
  | failedConstructor : Nat → Err → Err
  | noObjectsForType : Option PyType → Err
  | failedCreateVariable : Option PyType → Nat → Err
  | unknownStatementType : Err
  | indexError : Err
  | assertionFailed : Err
  deriving DecidableEq, Repr

/-- Outcome of an engine call: a normal return with the resulting
state, a raised exception with the state at the raise (Python performs
no rollback), or fuel exhaustion (modelling artifact). -/
inductive Res (α : Type) : Type
  | ok : α → St → Res α
  | err : Err → St → Res α
  | timeout : Res α
  deriving DecidableEq, Repr

/-- Python's `list.insert`: inserts at index `i`, clamping `i` to the
list length (an index past the end appends). -/
def pyInsert (l : List α) (i : Nat) (x : α) : List α :=
  l.take i ++ x :: l.drop i

/-- `TestCase.add_statement`: inserts a statement at a position,
shifting later statements, and returns the fresh variable reference
the statement defines. -/
def St.add_statement (s : St) (kind : StmtKind) (retType : Option PyType)
    (position : Nat) : Nat × St :=
  (s.nextId,
   { s with
     stmts := pyInsert s.stmts position ⟨kind, s.nextId, retType, 0⟩
     nextId := s.nextId + 1 })

/-- Setting the `distance` attribute of the variable reference `ref`
(the statement defining it is looked up by identity). -/
def St.setDistance (s : St) (ref : Nat) (d : Nat) : St :=
  { s with
    stmts := s.stmts.map fun st =>
      if st.retId = ref then { st with distance := d } else st }

/-- `randomness.next_float`: draws the next uniform float. -/
def St.next_float (s : St) : Rat × St :=
  (s.rand.floats.headD 0,
   { s with rand := { s.rand with floats := s.rand.floats.tail } })

/-- Draws the next raw index for a uniform choice. -/
def St.nextChoice (s : St) : Nat × St :=
  (s.rand.choices.headD 0,
   { s with rand := { s.rand with choices := s.rand.choices.tail } })

/-- `randomness.choice` / `RNG.choice`: uniform choice over a
sequence; Python raises on an empty sequence. -/
def choice (l : List α) (s : St) : Res α :=
  match l with
  | [] => .err .indexError s
  | x :: xs =>
    let (n, s1) := s.nextChoice
    .ok ((x :: xs).getD (n % (x :: xs).length) x) s1

/-- Modelled from the spec: `TestCase.get_objects`: the references of
all variables defined at a position strictly before `position` whose
recorded type equals the queried type; querying type `None` yields the
empty list. -/
def get_objects (stmts : List StmtRec) (t : Option PyType) (position : Nat) :
    List Nat :=
  match t with
  | none => []
  | some _ => ((stmts.take position).filter (fun st => st.retType == t)).map (·.retId)

/-- Normalization `if position < 0: position = test_case.size()`
performed at the head of the factory operations. -/
def normPos (position : Int) (len : Nat) : Nat :=
  if position < 0 then len else position.toNat

/-- `_select_from_union`: a non-union type is returned unchanged; for
a union one arm is chosen uniformly. -/
def select_from_union (parameterType : Option PyType) (s : St) :
    Res (Option PyType) :=
  match parameterType with
  | some (.union args) =>
    match choice args s with
    | .ok t s1 => .ok (some (.simple t)) s1
    | .err e s1 => .err e s1
    | .timeout => .timeout
  | _ => .ok parameterType s

/-- `_create_none`: appends a none-literal statement carrying the
requested type, re-fetches the statement at the insertion position,
stamps the reference's distance with the recursion depth and returns
it. -/
def create_none (parameterType : Option PyType) (position : Nat)
    (recursionDepth : Nat) (s : St) : Res Nat :=
  let (_, s1) := s.add_statement .noneLit parameterType position
  match s1.stmts[position]? with
  | none => .err .indexError s1
  | some st => .ok st.retId (s1.setDistance st.retId recursionDepth)

/-- `_create_primitive`: synthesizes the primitive-literal statement
for `int`, `float` and `bool`, falling back to a string literal for
any other type; stamps the distance and returns the fresh reference.
It has no failure path. -/
def create_primitive (parameterType : PyType) (position : Nat)
    (recursionDepth : Nat) (s : St) : Res Nat :=
  let t : PyType :=
    match parameterType with
    | .simple .int => .simple .int
    | .simple .float => .simple .float
    | .simple .bool => .simple .bool
    | _ => .simple .str
  let (ref, s1) := s.add_statement (.primitiveLit t) (some t) position
  .ok ref (s1.setDistance ref recursionDepth)

/-- `add_primitive`: clones a primitive-literal template into the test
case at the position and returns its reference; it takes no recursion
depth and never fails. -/
def add_primitive (s : St) (t : PyType) (position : Int) : Res Nat :=
  let position := normPos position s.stmts.length
  let (ref, s1) := s.add_statement (.primitiveLit t) (some t) position
  .ok ref s1

mutual

/-- `_TestFactory.add_constructor`.  The recursion-ceiling check comes
first; the body — parameter satisfaction, the final-position
recomputation and the insertion of the constructor statement — runs
under a catch-all that rewraps any raised failure into one naming the
constructor. -/
def add_constructor (E : Env) : Nat → GenericConstructor → Int → Nat → Bool →
    St → Res Nat
  | 0, _, _, _, _, _ => .timeout
  | fuel + 1, c, position, recursionDepth, allowNone, s =>
    if recursionDepth > E.cfg.max_recursion then .err .maxRecursionDepth s
    else
      let position := normPos position s.stmts.length
      let length := s.stmts.length
      match satisfy_parameters E fuel c.parameters none (position : Int)
          (recursionDepth + 1) allowNone true s with
      | .ok params s1 =>
        let newLength := s1.stmts.length
        let position := position + (newLength - length)
        let (ref, s2) := s1.add_statement (.constructorCall c.ctorId params)
          (some (.simple (.cls c.ownerClass))) position
        .ok ref s2
      | .err e s1 => .err (.failedConstructor c.ctorId e) s1
      | .timeout => .timeout
termination_by structural fuel => fuel

/-- `_TestFactory.add_method`: resolves a receiver for the method's
owner type (at the same recursion depth, a `None` receiver allowed),
then the parameters, recomputes the final position by the net growth
and inserts the method statement.  Failures propagate unwrapped. -/
def add_method (E : Env) : Nat → GenericMethod → Int → Nat → Bool → St →
    Res Nat
  | 0, _, _, _, _, _ => .timeout
  | fuel + 1, m, position, recursionDepth, allowNone, s =>
    if recursionDepth > E.cfg.max_recursion then .err .maxRecursionDepth s
    else
      let position := normPos position s.stmts.length
      let length := s.stmts.length
      match create_or_reuse_variable E fuel (some m.owner) position
          recursionDepth true none s with
      | .ok callee s1 =>
        match satisfy_parameters E fuel m.parameters none (position : Int)
            (recursionDepth + 1) allowNone true s1 with
        | .ok params s2 =>
          let position := position + (s2.stmts.length - length)
          let (ref, s3) := s2.add_statement
            (.methodCall m.methodId callee params) m.retType position
          .ok ref s3
        | .err e s2 => .err e s2
        | .timeout => .timeout
      | .err e s1 => .err e s1
      | .timeout => .timeout
termination_by structural fuel => fuel

/-- `_TestFactory.add_field`: resolves an owner reference (a `None`
receiver disallowed) and appends the field-access statement.  Failures
propagate unwrapped. -/
def add_field (E : Env) : Nat → GenericField → Int → Nat → St → Res Nat
  | 0, _, _, _, _ => .timeout
  | fuel + 1, f, position, recursionDepth, s =>
    if recursionDepth > E.cfg.max_recursion then .err .maxRecursionDepth s
    else
      let position := normPos position s.stmts.length
      let length := s.stmts.length
      match create_or_reuse_variable E fuel (some f.owner) position
          recursionDepth false none s with
      | .ok callee s1 =>
        let position := position + (s1.stmts.length - length)
        let (ref, s2) := s1.add_statement (.fieldAccess f.fieldId callee)
          f.fieldType position
        .ok ref s2
      | .err e s1 => .err e s1
      | .timeout => .timeout
termination_by structural fuel => fuel

/-- `_TestFactory.add_function`: like `add_constructor` but without
the rewrapping catch-all — failures propagate unwrapped. -/
def add_function (E : Env) : Nat → GenericFunction → Int → Nat → Bool → St →
    Res Nat
  | 0, _, _, _, _, _ => .timeout
  | fuel + 1, f, position, recursionDepth, allowNone, s =>
    if recursionDepth > E.cfg.max_recursion then .err .maxRecursionDepth s
    else
      let position := normPos position s.stmts.length
      let length := s.stmts.length
      match satisfy_parameters E fuel f.parameters none (position : Int)
          (recursionDepth + 1) allowNone true s with
      | .ok params s1 =>
        let position := position + (s1.stmts.length - length)
        let (ref, s2) := s1.add_statement (.functionCall f.funcId params)
          f.retType position
        .ok ref s2
      | .err e s1 => .err e s1
      | .timeout => .timeout
termination_by structural fuel => fuel

/-- `_TestFactory.append_generic_statement`: position `-1` defaults to
the end of the test case; dispatches on the accessible object's
variant.  The variant set is closed here, so the unknown-variant
failure of the source is unreachable. -/
def append_generic_statement (E : Env) : Nat → GAO → Int → Nat → Bool → St →
    Res Nat
  | 0, _, _, _, _, _ => .timeout
  | fuel + 1, g, position, recursionDepth, allowNone, s =>
    let newPosition : Int :=
      if position == -1 then (s.stmts.length : Int) else position
    match g with
    | .ctorObj c => add_constructor E fuel c newPosition recursionDepth allowNone s
    | .methodObj m => add_method E fuel m newPosition recursionDepth allowNone s
    | .funcObj f => add_function E fuel f newPosition recursionDepth allowNone s
    | .fieldObj f => add_field E fuel f newPosition recursionDepth s
termination_by structural fuel => fuel

/-- `_TestFactory.satisfy_parameters`: normalizes the position and
runs the per-parameter loop. -/
def satisfy_parameters (E : Env) : Nat → List (Option PyType) → Option Nat →
    Int → Nat → Bool → Bool → St → Res (List Nat)
  | 0, _, _, _, _, _, _, _ => .timeout
  | fuel + 1, parameterTypes, callee, position, recursionDepth, allowNone,
      canReuse, s =>
    let position := normPos position s.stmts.length
    satisfy_loop E fuel parameterTypes callee position recursionDepth allowNone
      canReuse s
termination_by structural fuel => fuel

/-- The `for` loop of `satisfy_parameters`: each parameter type, in
declaration order, is resolved by reuse-or-create (or forced creation
when reuse is disabled); a `None` resolution raises the failure naming
the unsatisfiable type and the position; the position is advanced by
the net growth the resolution caused. -/
def satisfy_loop (E : Env) : Nat → List (Option PyType) → Option Nat → Nat →
    Nat → Bool → Bool → St → Res (List Nat)
  | 0, _, _, _, _, _, _, _ => .timeout
  | _ + 1, [], _, _, _, _, _, s => .ok [] s
  | fuel + 1, t :: rest, callee, position, recursionDepth, allowNone,
      canReuse, s =>
    let previousLength := s.stmts.length
    let varRes : Res (Option Nat) :=
      if canReuse then
        match create_or_reuse_variable E fuel t position recursionDepth
            allowNone callee s with
        | .ok v s1 => .ok (some v) s1
        | .err e s1 => .err e s1
        | .timeout => .timeout
      else
        create_variable E fuel t position recursionDepth allowNone callee s
    match varRes with
    | .ok none s1 => .err (.failedCreateVariable t position) s1
    | .ok (some v) s1 =>
      let position := position + (s1.stmts.length - previousLength)
      match satisfy_loop E fuel rest callee position recursionDepth allowNone
          canReuse s1 with
      | .ok vs s2 => .ok (v :: vs) s2
      | .err e s2 => .err e s2
      | .timeout => .timeout
    | .err e s1 => .err e s1
    | .timeout => .timeout
termination_by structural fuel => fuel

/-- `_TestFactory._create_or_reuse_variable`: union types first
resolve to one arm; a reuse draw may return an existing object of the
type (under the primitive or object reuse probability); an untyped
parameter with a non-empty test case falls back to a uniformly random
earlier variable; otherwise fresh construction is attempted, and on
its returning no value either the random-unrelated-type fallback (at
probability `0.85`), a none-literal (when allowed), a raised failure,
or last-resort reuse applies.  (The `exclude` parameter exists in the
source's signature but is never used.) -/
def create_or_reuse_variable (E : Env) : Nat → Option PyType → Nat → Nat →
    Bool → Option Nat → St → Res Nat
  | 0, _, _, _, _, _, _ => .timeout
  | fuel + 1, parameterType, position, recursionDepth, allowNone, exclude, s =>
    match select_from_union parameterType s with
    | .err e s0 => .err e s0
    | .timeout => .timeout
    | .ok parameterType s0 =>
      let (reuse, s1) := s0.next_float
      let objects := get_objects s1.stmts parameterType position
      let isPrimitive := is_primitive_type parameterType
      if isPrimitive ∧ objects ≠ [] ∧
          reuse ≤ E.cfg.primitive_reuse_probability then
        choice objects s1
      else if ¬isPrimitive ∧ objects ≠ [] ∧
          reuse ≤ E.cfg.object_reuse_probability then
        choice objects s1
      else
        let anyVars : List Nat :=
          if s1.stmts.length > 0 ∧ parameterType = none ∧ objects = [] then
            (s1.stmts.take position).map (·.retId)
          else []
        if anyVars ≠ [] then choice anyVars s1
        else
          match create_variable E fuel parameterType position recursionDepth
              allowNone exclude s1 with
          | .ok (some created) s2 => .ok created s2
          | .ok none s2 =>
            if objects = [] then
              let (r, s3) := s2.next_float
              if r ≤ (0.85 : Rat) then
                create_random_type_variable E fuel position recursionDepth
                  allowNone s3
              else if allowNone then
                create_none parameterType position recursionDepth s3
              else .err (.noObjectsForType parameterType) s3
            else choice objects s2
          | .err e s2 => .err e s2
          | .timeout => .timeout
termination_by structural fuel => fuel

/-- `_TestFactory._create_variable`: delegates to
`_attempt_generation`. -/
def create_variable (E : Env) : Nat → Option PyType → Nat → Nat → Bool →
    Option Nat → St → Res (Option Nat)
  | 0, _, _, _, _, _, _ => .timeout
  | fuel + 1, parameterType, position, recursionDepth, allowNone, exclude, s =>
    attempt_generation E fuel parameterType position recursionDepth allowNone
      exclude s
termination_by structural fuel => fuel

/-- `_TestFactory._attempt_generation`: an absent type yields no value
(not a failure); a primitive type is synthesized directly; a type with
known generators recurses through one of them; otherwise, when a
`None` value is allowed, a none-literal is synthesized with
probability `none_probability`, else no value is returned. -/
def attempt_generation (E : Env) : Nat → Option PyType → Nat → Nat → Bool →
    Option Nat → St → Res (Option Nat)
  | 0, _, _, _, _, _, _ => .timeout
  | fuel + 1, parameterType, position, recursionDepth, allowNone, _exclude,
      s =>
    match parameterType with
    | none => .ok none s
    | some t =>
      if is_primitive_type (some t) then
        match create_primitive t position recursionDepth s with
        | .ok v s1 => .ok (some v) s1
        | .err e s1 => .err e s1
        | .timeout => .timeout
      else
        match E.cluster.get_generators_for t with
        | [] =>
          if allowNone then
            let (r, s1) := s.next_float
            if r ≤ E.cfg.none_probability then
              match create_none (some t) position recursionDepth s1 with
              | .ok v s2 => .ok (some v) s2
              | .err e s2 => .err e s2
              | .timeout => .timeout
            else .ok none s1
          else .ok none s
        | g :: gs =>
          match attempt_generation_for_type E fuel position recursionDepth
              allowNone (g :: gs) s with
          | .ok v s1 => .ok (some v) s1
          | .err e s1 => .err e s1
          | .timeout => .timeout
termination_by structural fuel => fuel

/-- `_TestFactory._attempt_generation_for_type`: picks one generator
uniformly and appends it one recursion level deeper. -/
def attempt_generation_for_type (E : Env) : Nat → Nat → Nat → Bool →
    List GAO → St → Res Nat
  | 0, _, _, _, _, _ => .timeout
  | fuel + 1, position, recursionDepth, allowNone, typeGenerators, s =>
    match choice typeGenerators s with
    | .ok g s1 =>
      append_generic_statement E fuel g (position : Int) (recursionDepth + 1)
        allowNone s1
    | .err e s1 => .err e s1
    | .timeout => .timeout
termination_by structural fuel => fuel

/-- `_TestFactory._create_random_type_variable`: picks a uniformly
random type from the catalog's generator-bearing types extended with
the primitive types, and resolves it one recursion level deeper. -/
def create_random_type_variable (E : Env) : Nat → Nat → Nat → Bool → St →
    Res Nat
  | 0, _, _, _, _ => .timeout
  | fuel + 1, position, recursionDepth, allowNone, s =>
    let generatorTypes := E.cluster.generators.map Prod.fst ++ PRIMITIVES
    match choice generatorTypes s with
    | .ok t s1 =>
      create_or_reuse_variable E fuel (some t) position (recursionDepth + 1)
        allowNone none s1
    | .err e s1 => .err e s1
    | .timeout => .timeout
termination_by structural fuel => fuel

end

/-- Whether a call returned normally. -/
def Res.isOk : Res α → Bool
  | .ok _ _ => true
  | _ => false

/-- The number of statements of the test case after a call (`0` for a
fuel timeout, which never occurs at sufficient fuel). -/
def Res.stmtCount : Res α → Nat
  | .ok _ s => s.stmts.length
  | .err _ s => s.stmts.length
  | .timeout => 0

/-- The error of a failed call. -/
def Res.error? : Res α → Option Err
  | .err e _ => some e
  | _ => none

/-! ### The variable-reference data type (`variablereference.py`) -/

/-- A variable reference as `structural_eq` sees it: its identity and
its recorded (mutable) variable type. -/
structure VRef : Type where
  id : Nat
  variable_type : Option PyType
  deriving DecidableEq, Repr

/-- A Python value passed as the `other` argument of `structural_eq`:
a variable reference or any other object. -/
inductive PyVal : Type
  | ref : VRef → PyVal
  | nonRef : PyVal
  deriving DecidableEq, Repr

/-- `VariableReference.structural_eq`: `False` for a non-reference;
otherwise the recorded types are compared first and, only when they
are equal, the left operand is resolved through the old-to-new remap
`memo` and compared with the right operand by identity.  A reference
missing from `memo` raises (`none` models the `KeyError`). -/
def structural_eq (self : VRef) (other : PyVal)
    (memo : List (VRef × VRef)) : Option Bool :=
  match other with
  | .nonRef => some false
  | .ref o =>
    if self.variable_type = o.variable_type then
      match memo.lookup self with
      | none => none
      | some m => some (decide (m = o))
    else some false

/-! ### Dependency-order predicates -/

/-- The references defined by the statements at positions strictly
before `n`. -/
def idsBefore (l : List StmtRec) (n : Nat) : List Nat :=
  (l.take n).map (·.retId)

/-- Each statement's owned references are among the references defined
by earlier statements, `seen` being the references visible before the
list. -/
def wfFrom : List Nat → List StmtRec → Prop
  | _, [] => True
  | seen, st :: rest =>
    (∀ r ∈ st.kind.ownedRefs, r ∈ seen) ∧ wfFrom (seen ++ [st.retId]) rest

instance instDecWfFrom : (seen : List Nat) → (l : List StmtRec) →
    Decidable (wfFrom seen l)
  | _, [] => .isTrue trivial
  | seen, st :: rest =>
    have : Decidable (wfFrom (seen ++ [st.retId]) rest) := instDecWfFrom _ rest
    decidable_of_iff
      ((∀ r ∈ st.kind.ownedRefs, r ∈ seen) ∧ wfFrom (seen ++ [st.retId]) rest)
      (by rw [wfFrom])

/-- Well-formedness of an engine state: the test case is in dependency
order (no forward references) and every recorded reference identity is
below the fresh-identity counter. -/
def WF (s : St) : Prop :=
  wfFrom [] s.stmts ∧ ∀ st ∈ s.stmts, st.retId < s.nextId

instance instDecWF (s : St) : Decidable (WF s) :=
  decidable_of_iff
    (wfFrom [] s.stmts ∧ ∀ st ∈ s.stmts, st.retId < s.nextId) Iff.rfl

/-- `VariableReferenceImpl.get_statement_position`: the position of
the first statement defining the reference. -/
def defPos : List StmtRec → Nat → Option Nat
  | [], _ => none
  | st :: rest, r =>
    if st.retId = r then some 0 else (defPos rest r).map (· + 1)

/-- The reference's defining position exists and is strictly less than
`i`. -/
def refBeforeB (l : List StmtRec) (r : Nat) (i : Nat) : Bool :=
  match defPos l r with
  | some j => decide (j < i)
  | none => false

/-- Dependency order of a test case: every owned reference of every
statement has a defining position strictly less than the statement's
own position. -/
def depOrder (l : List StmtRec) : Prop :=
  ∀ i (h : i < l.length), ∀ r ∈ (l.get ⟨i, h⟩).kind.ownedRefs,
    refBeforeB l r i = true

/-- The test case grew only by a block of statements inserted at
position `q`: the statements before `q` and from `q` on are preserved
around the block. -/
def Frame (q : Nat) (a b : List StmtRec) : Prop :=
  ∃ B, b = a.take q ++ B ++ a.drop q

/-- Contract of one engine call requested at position `q` that
returned the variable reference `v`: the test case grew only by a
block at `q`, well-formedness is preserved, the identity counter never
decreases, and `v` is defined strictly before position
`q + (net growth)` — the frontier where the caller will insert its own
statement. -/
def ValSpec (q : Nat) (s : St) (v : Nat) (s' : St) : Prop :=
  Frame q s.stmts s'.stmts ∧ WF s' ∧ s.nextId ≤ s'.nextId ∧
    v ∈ idsBefore s'.stmts (q + (s'.stmts.length - s.stmts.length))

/-- Contract of `satisfy_parameters` / its loop: as `ValSpec`, for
every returned reference. -/
def ListSpec (q : Nat) (s : St) (vs : List Nat) (s' : St) : Prop :=
  Frame q s.stmts s'.stmts ∧ WF s' ∧ s.nextId ≤ s'.nextId ∧
    ∀ v ∈ vs, v ∈ idsBefore s'.stmts (q + (s'.stmts.length - s.stmts.length))

/-- Induction statement for `add_constructor`. -/
def CtorOK (E : Env) (fuel : Nat) : Prop :=
  ∀ c position recursionDepth allowNone s v s', WF s →
    add_constructor E fuel c position recursionDepth allowNone s = .ok v s' →
    ValSpec (normPos position s.stmts.length) s v s' ∧ s.nextId ≤ v

/-- Induction statement for `add_method`. -/
def MethodOK (E : Env) (fuel : Nat) : Prop :=
  ∀ m position recursionDepth allowNone s v s', WF s →
    add_method E fuel m position recursionDepth allowNone s = .ok v s' →
    ValSpec (normPos position s.stmts.length) s v s' ∧ s.nextId ≤ v

/-- Induction statement for `add_field`. -/
def FieldOK (E : Env) (fuel : Nat) : Prop :=
  ∀ f position recursionDepth s v s', WF s →
    add_field E fuel f position recursionDepth s = .ok v s' →
    ValSpec (normPos position s.stmts.length) s v s' ∧ s.nextId ≤ v

/-- Induction statement for `add_function`. -/
def FuncOK (E : Env) (fuel : Nat) : Prop :=
  ∀ f position recursionDepth allowNone s v s', WF s →
    add_function E fuel f position recursionDepth allowNone s = .ok v s' →
    ValSpec (normPos position s.stmts.length) s v s' ∧ s.nextId ≤ v

/-- Induction statement for `append_generic_statement`. -/
def AppendOK (E : Env) (fuel : Nat) : Prop :=
  ∀ g position recursionDepth allowNone s v s', WF s →
    append_generic_statement E fuel g position recursionDepth allowNone s =
      .ok v s' →
    ValSpec (normPos position s.stmts.length) s v s' ∧ s.nextId ≤ v

/-- Induction statement for `satisfy_parameters`. -/
def SatOK (E : Env) (fuel : Nat) : Prop :=
  ∀ pts callee position recursionDepth allowNone canReuse s vs s', WF s →
    satisfy_parameters E fuel pts callee position recursionDepth allowNone
      canReuse s = .ok vs s' →
    ListSpec (normPos position s.stmts.length) s vs s' ∧
      (canReuse = false → ∀ v ∈ vs, s.nextId ≤ v) ∧ vs.length = pts.length

/-- Induction statement for `satisfy_loop`. -/
def LoopOK (E : Env) (fuel : Nat) : Prop :=
  ∀ pts callee position recursionDepth allowNone canReuse s vs s', WF s →
    satisfy_loop E fuel pts callee position recursionDepth allowNone
      canReuse s = .ok vs s' →
    ListSpec position s vs s' ∧
      (canReuse = false → ∀ v ∈ vs, s.nextId ≤ v) ∧ vs.length = pts.length

/-- Induction statement for `create_or_reuse_variable`. -/
def CorOK (E : Env) (fuel : Nat) : Prop :=
  ∀ parameterType position recursionDepth allowNone exclude s v s', WF s →
    create_or_reuse_variable E fuel parameterType position recursionDepth
      allowNone exclude s = .ok v s' →
    ValSpec position s v s'

/-- Induction statement for `create_variable`. -/
def CvarOK (E : Env) (fuel : Nat) : Prop :=
  ∀ parameterType position recursionDepth allowNone exclude s r s', WF s →
    create_variable E fuel parameterType position recursionDepth allowNone
      exclude s = .ok r s' →
    match r with
    | none => s'.stmts = s.stmts ∧ s'.nextId = s.nextId ∧ WF s'
    | some v => ValSpec position s v s' ∧ s.nextId ≤ v

/-- Induction statement for `attempt_generation`. -/
def AgenOK (E : Env) (fuel : Nat) : Prop :=
  ∀ parameterType position recursionDepth allowNone exclude s r s', WF s →
    attempt_generation E fuel parameterType position recursionDepth allowNone
      exclude s = .ok r s' →
    match r with
    | none => s'.stmts = s.stmts ∧ s'.nextId = s.nextId ∧ WF s'
    | some v => ValSpec position s v s' ∧ s.nextId ≤ v

/-- Induction statement for `attempt_generation_for_type`. -/
def AgenForTypeOK (E : Env) (fuel : Nat) : Prop :=
  ∀ position recursionDepth allowNone typeGenerators s v s', WF s →
    attempt_generation_for_type E fuel position recursionDepth allowNone
      typeGenerators s = .ok v s' →
    ValSpec position s v s' ∧ s.nextId ≤ v

/-- Induction statement for `create_random_type_variable`. -/
def RandTypeOK (E : Env) (fuel : Nat) : Prop :=
  ∀ position recursionDepth allowNone s v s', WF s →
    create_random_type_variable E fuel position recursionDepth allowNone s =
      .ok v s' →
    ValSpec position s v s'


/-! ### Concrete sample inputs used by the witnesses below -/

/-- A configuration with recursion ceiling `0` and an empty catalog. -/
def EW : Env := ⟨⟨0, 1/2, 1/2, 1/2⟩, ⟨[]⟩⟩

/-- A configuration whose reuse probabilities are `1.0`. -/
def EW2 : Env := ⟨⟨3, 1, 1, 1/2⟩, ⟨[]⟩⟩

/-- The empty test case with exhausted random streams. -/
def sEmpty : St := ⟨[], 0, ⟨[], []⟩⟩

/-- A constructor of class `0` with one `int` parameter. -/
def ctorW : GenericConstructor := ⟨0, 0, [some (.simple .int)]⟩

/-- A test case holding one `int` literal. -/
def sOne : St :=
  ⟨[⟨.primitiveLit (.simple .int), 0, some (.simple .int), 0⟩], 1,
   ⟨[1/2], [0]⟩⟩

/-- Empty test case whose second float draw exceeds `0.85`. -/
def sC7 : St := ⟨[], 0, ⟨[0, 9/10], []⟩⟩

/-- Empty test case whose float draws are all `0`. -/
def sC3 : St := ⟨[], 0, ⟨[0, 0], [0]⟩⟩

/-- Empty test case with draws selecting the none-probability miss and
the random-type fallback. -/
def sC5 : St := ⟨[], 0, ⟨[0, 1, 0], [0]⟩⟩

/-- Result state of `add_constructor` on `sEmpty` with `ctorW`. -/
def sC2res : St :=
  ⟨[⟨.primitiveLit (.simple .int), 0, some (.simple .int), 1⟩,
    ⟨.constructorCall 0 [0], 1, some (.simple (.cls 0)), 0⟩], 2, ⟨[], []⟩⟩

/-- Result state of forced creation of one `int` on `sOne`. -/
def sC8res : St :=
  ⟨[⟨.primitiveLit (.simple .int), 0, some (.simple .int), 0⟩,
    ⟨.primitiveLit (.simple .int), 1, some (.simple .int), 0⟩], 2,
   ⟨[1/2], [0]⟩⟩

/-- Result state of satisfying an `int` and a `bool` parameter on
`sEmpty`. -/
def sC4res : St :=
  ⟨[⟨.primitiveLit (.simple .int), 0, some (.simple .int), 0⟩,
    ⟨.primitiveLit (.simple .bool), 1, some (.simple .bool), 0⟩], 2,
   ⟨[], []⟩⟩

/-! ### List-level lemmas about the insertion model -/

theorem pyInsert_length (l : List α) (i : Nat) (x : α) :
    (pyInsert l i x).length = l.length + 1 := by
  simp only [pyInsert, List.length_append, List.length_take,
    List.length_cons, List.length_drop]
  omega

theorem take_pyInsert (l : List α) (i : Nat) (x : α) :
    (pyInsert l i x).take (i + 1) = l.take i ++ [x] := by
  induction l generalizing i with
  | nil => simp [pyInsert]
  | cons y l ih =>
    cases i with
    | zero => simp [pyInsert]
    | succ i =>
      simp only [pyInsert, List.take_succ_cons, List.drop_succ_cons,
        List.cons_append] at *
      rw [ih i]

theorem mem_pyInsert {l : List α} {i : Nat} {x y : α}
    (h : y ∈ pyInsert l i x) : y = x ∨ y ∈ l := by
  simp only [pyInsert, List.mem_append, List.mem_cons] at h
  rcases h with h | h | h
  · exact Or.inr (List.take_subset i l h)
  · exact Or.inl h
  · exact Or.inr (List.drop_subset i l h)

theorem take_subset_take (l : List α) {m m' : Nat} (h : m ≤ m') :
    ∀ x ∈ l.take m, x ∈ l.take m' := by
  induction l generalizing m m' with
  | nil => simp
  | cons y l ih =>
    cases m with
    | zero => simp
    | succ m =>
      cases m' with
      | zero => omega
      | succ m' =>
        intro x hx
        simp only [List.take_succ_cons, List.mem_cons] at hx ⊢
        rcases hx with hx | hx
        · exact Or.inl hx
        · exact Or.inr (ih (Nat.le_of_succ_le_succ h) x hx)

theorem idsBefore_mono {l : List StmtRec} {m m' : Nat} (h : m ≤ m') :
    ∀ x ∈ idsBefore l m, x ∈ idsBefore l m' := by
  intro x hx
  simp only [idsBefore, List.mem_map] at hx ⊢
  obtain ⟨st, hst, rfl⟩ := hx
  exact ⟨st, take_subset_take l h st hst, rfl⟩

theorem idsBefore_pyInsert (l : List StmtRec) (i : Nat) (x : StmtRec) :
    idsBefore (pyInsert l i x) (i + 1) = idsBefore l i ++ [x.retId] := by
  simp only [idsBefore, take_pyInsert, List.map_append, List.map_cons,
    List.map_nil]

theorem get_objects_subset {l : List StmtRec} {t : Option PyType} {q : Nat} :
    ∀ v ∈ get_objects l t q, v ∈ idsBefore l q := by
  intro v hv
  cases t with
  | none => simp [get_objects] at hv
  | some t' =>
    simp only [get_objects, List.mem_map, List.mem_filter] at hv
    obtain ⟨st, ⟨hst, _⟩, rfl⟩ := hv
    exact List.mem_map_of_mem _ hst

/-! ### Frame lemmas -/

theorem Frame.refl (q : Nat) (a : List StmtRec) : Frame q a a :=
  ⟨[], by simp⟩

theorem Frame.single (l : List StmtRec) (i : Nat) (x : StmtRec) :
    Frame i l (pyInsert l i x) :=
  ⟨[x], by simp [pyInsert]⟩

theorem Frame.length_le {q : Nat} {a b : List StmtRec} (h : Frame q a b) :
    a.length ≤ b.length := by
  obtain ⟨B, rfl⟩ := h
  simp only [List.length_append, List.length_take, List.length_drop]
  omega


theorem frame_take_drop {q : Nat} {a : List α} (B : List α)
    {p : Nat} (hq : q ≤ a.length) (hqp : q ≤ p) (hpB : p ≤ q + B.length) :
    (a.take q ++ B ++ a.drop q).take p = a.take q ++ B.take (p - q) ∧
    (a.take q ++ B ++ a.drop q).drop p = B.drop (p - q) ++ a.drop q := by
  have hT : (a.take q).length = q := by
    rw [List.length_take]; omega
  have h0 : p - q - B.length = 0 := by omega
  rw [List.append_assoc]
  constructor
  · rw [List.take_append_eq_append_take,
      List.take_of_length_le (by omega : (a.take q).length ≤ p), hT,
      List.take_append_eq_append_take, h0]
    simp
  · rw [List.drop_append_eq_append_drop,
      List.drop_eq_nil_of_le (by omega : (a.take q).length ≤ p), hT,
      List.drop_append_eq_append_drop, h0]
    simp

theorem Frame.trans_at {q p : Nat} {a b c : List StmtRec}
    (hab : Frame q a b) (hbc : Frame p b c) (hqp : q ≤ p)
    (hpb : p ≤ q + (b.length - a.length)) : Frame q a c := by
  obtain ⟨B, rfl⟩ := hab
  obtain ⟨C, rfl⟩ := hbc
  by_cases hq : q ≤ a.length
  · have hpB : p ≤ q + B.length := by
      simp only [List.length_append, List.length_take, List.length_drop] at hpb
      omega
    obtain ⟨h1, h2⟩ := frame_take_drop B hq hqp hpB
    rw [h1, h2]
    exact ⟨B.take (p - q) ++ C ++ B.drop (p - q), by simp [List.append_assoc]⟩
  · have hq' : a.length ≤ q := by omega
    have hp' : a.length ≤ p := by omega
    rw [List.take_of_length_le hq', List.drop_eq_nil_of_le hq']
    simp only [List.append_nil]
    refine ⟨B.take (p - a.length) ++ C ++ (a ++ B).drop p, ?_⟩
    rw [List.take_append_eq_append_take, List.take_of_length_le hp',
      List.take_of_length_le hq', List.drop_eq_nil_of_le hq']
    simp [List.append_assoc]

theorem frame_mem_take {p m : Nat} {a : List α} (B : List α)
    (hpm : p ≤ m) {x : α} (hx : x ∈ a.take m) :
    x ∈ (a.take p ++ B ++ a.drop p).take (m + B.length) := by
  by_cases hp : p ≤ a.length
  · have hT : (a.take p).length = p := by rw [List.length_take]; omega
    have h1 : (a.take p ++ B ++ a.drop p).take (m + B.length)
        = a.take p ++ (B ++ (a.drop p).take (m - p)) := by
      rw [List.append_assoc, List.take_append_eq_append_take,
        List.take_of_length_le (by omega : (a.take p).length ≤ m + B.length),
        hT, List.take_append_eq_append_take,
        List.take_of_length_le (by omega : B.length ≤ m + B.length - p),
        show m + B.length - p - B.length = m - p from by omega]
    rw [h1]
    have h2 : a.take m = a.take p ++ (a.drop p).take (m - p) := by
      rw [show m = p + (m - p) from by omega, List.take_add,
        Nat.add_sub_cancel_left]
    rw [h2] at hx
    rcases List.mem_append.mp hx with h | h
    · exact List.mem_append.mpr (Or.inl h)
    · exact List.mem_append.mpr (Or.inr (List.mem_append.mpr (Or.inr h)))
  · have hq' : a.length ≤ p := by omega
    rw [List.take_of_length_le hq', List.drop_eq_nil_of_le hq']
    simp only [List.append_nil]
    rw [List.take_of_length_le (by simp; omega : (a ++ B).length ≤ m + B.length)]
    exact List.mem_append.mpr (Or.inl (List.take_subset m a hx))

theorem Frame.length_add {q : Nat} (a B : List StmtRec) :
    (a.take q ++ B ++ a.drop q).length = a.length + B.length := by
  simp only [List.length_append, List.length_take, List.length_drop]
  omega

theorem Frame.idsBefore_le {p m : Nat} {a b : List StmtRec} (h : Frame p a b)
    (hpm : p ≤ m) :
    ∀ x ∈ idsBefore a m, x ∈ idsBefore b (m + (b.length - a.length)) := by
  obtain ⟨B, rfl⟩ := h
  rw [Frame.length_add a B, Nat.add_sub_cancel_left]
  intro x hx
  simp only [idsBefore, List.mem_map] at hx ⊢
  obtain ⟨st, hst, rfl⟩ := hx
  exact ⟨st, frame_mem_take B hpm hst, rfl⟩

theorem wfFrom_mono : ∀ {l : List StmtRec} {s1 s2 : List Nat},
    (∀ a ∈ s1, a ∈ s2) → wfFrom s1 l → wfFrom s2 l := by
  intro l
  induction l with
  | nil => intro s1 s2 _ _; trivial
  | cons st rest ih =>
    intro s1 s2 hsub h
    obtain ⟨h1, h2⟩ := h
    refine ⟨fun r hr => hsub r (h1 r hr), ih ?_ h2⟩
    intro a ha
    rcases List.mem_append.mp ha with ha | ha
    · exact List.mem_append.mpr (Or.inl (hsub a ha))
    · exact List.mem_append.mpr (Or.inr ha)

theorem wfFrom_insert : ∀ (l : List StmtRec) (i : Nat) (x : StmtRec)
    (seen : List Nat), wfFrom seen l →
    (∀ r ∈ x.kind.ownedRefs, r ∈ seen ++ (l.take i).map (·.retId)) →
    wfFrom seen (pyInsert l i x) := by
  intro l
  induction l with
  | nil =>
    intro i x seen _ hx
    simp only [pyInsert, List.take_nil, List.drop_nil, List.nil_append]
    exact ⟨fun r hr => by simpa using hx r hr, trivial⟩
  | cons st rest ih =>
    intro i x seen hwf hx
    obtain ⟨h1, h2⟩ := hwf
    cases i with
    | zero =>
      simp only [pyInsert, List.take_zero, List.drop_zero, List.nil_append]
      refine ⟨fun r hr => by simpa using hx r hr, ?_⟩
      refine ⟨fun r hr => List.mem_append.mpr (Or.inl (h1 r hr)), ?_⟩
      refine wfFrom_mono (fun a ha => ?_) h2
      rcases List.mem_append.mp ha with ha | ha
      · exact List.mem_append.mpr (Or.inl (List.mem_append.mpr (Or.inl ha)))
      · exact List.mem_append.mpr (Or.inr ha)
    | succ i =>
      simp only [pyInsert, List.take_succ_cons, List.drop_succ_cons,
        List.cons_append]
      refine ⟨h1, ?_⟩
      have hx' : ∀ r ∈ x.kind.ownedRefs,
          r ∈ (seen ++ [st.retId]) ++ (rest.take i).map (·.retId) := by
        intro r hr
        have := hx r hr
        simp only [List.take_succ_cons, List.map_cons, List.mem_append,
          List.mem_cons, List.mem_singleton] at this ⊢
        tauto
      simpa [pyInsert] using ih i x (seen ++ [st.retId]) h2 hx'

theorem wfFrom_mem_refs : ∀ {l : List StmtRec} {seen : List Nat},
    wfFrom seen l → ∀ i (h : i < l.length),
    ∀ r ∈ (l.get ⟨i, h⟩).kind.ownedRefs, r ∈ seen ∨ r ∈ idsBefore l i := by
  intro l
  induction l with
  | nil => intro seen _ i h; simp at h
  | cons st rest ih =>
    intro seen hwf i h r hr
    obtain ⟨h1, h2⟩ := hwf
    cases i with
    | zero => exact Or.inl (h1 r hr)
    | succ i =>
      rcases ih h2 i (by simpa using h) r hr with hseen | hbefore
      · rcases List.mem_append.mp hseen with hs | hs
        · exact Or.inl hs
        · refine Or.inr ?_
          simp only [idsBefore, List.take_succ_cons, List.map_cons,
            List.mem_cons]
          exact Or.inl (List.mem_singleton.mp hs)
      · refine Or.inr ?_
        simp only [idsBefore, List.take_succ_cons, List.map_cons,
          List.mem_cons] at hbefore ⊢
        exact Or.inr hbefore

theorem defPos_lt_of_mem : ∀ {l : List StmtRec} {r i : Nat},
    r ∈ idsBefore l i → refBeforeB l r i = true := by
  intro l
  induction l with
  | nil => intro r i h; simp [idsBefore] at h
  | cons st rest ih =>
    intro r i h
    cases i with
    | zero => simp [idsBefore] at h
    | succ i =>
      simp only [idsBefore, List.take_succ_cons, List.map_cons,
        List.mem_cons] at h
      by_cases hst : st.retId = r
      · simp [refBeforeB, defPos, hst]
      · rcases h with h | h
        · exact absurd h.symm hst
        · have hrec := ih (show r ∈ idsBefore rest i from h)
          simp only [refBeforeB, defPos, hst, if_false] at hrec ⊢
          cases hdp : defPos rest r with
          | none => rw [hdp] at hrec; simp at hrec
          | some j =>
            rw [hdp] at hrec
            simp only [Option.map_some'] at *
            simp only [decide_eq_true_eq] at hrec ⊢
            omega

theorem depOrder_of_wfFrom {l : List StmtRec} (h : wfFrom [] l) :
    depOrder l := by
  intro i hi r hr
  rcases wfFrom_mem_refs h i hi r hr with h0 | h1
  · simp at h0
  · exact defPos_lt_of_mem h1

/-! ### Leaf-operation lemmas -/

theorem getD_mem {l : List α} {n : Nat} {d : α} (hd : d ∈ l) :
    l.getD n d ∈ l := by
  rw [List.getD_eq_getElem?_getD]
  cases h : l[n]? with
  | none => simpa using hd
  | some a => simpa using List.getElem?_mem h

theorem choice_ok {l : List α} {s : St} {v : α} {s' : St}
    (h : choice l s = .ok v s') :
    v ∈ l ∧ s'.stmts = s.stmts ∧ s'.nextId = s.nextId := by
  cases l with
  | nil => simp [choice] at h
  | cons x xs =>
    simp only [choice, St.nextChoice] at h
    cases h
    exact ⟨getD_mem (List.mem_cons_self x xs), rfl, rfl⟩

theorem select_from_union_ok {pt pt' : Option PyType} {s s' : St}
    (h : select_from_union pt s = .ok pt' s') :
    s'.stmts = s.stmts ∧ s'.nextId = s.nextId := by
  match pt with
  | none => cases h; exact ⟨rfl, rfl⟩
  | some (.simple t) => cases h; exact ⟨rfl, rfl⟩
  | some (.union args) =>
    simp only [select_from_union] at h
    cases hc : choice args s with
    | ok t s1 =>
      rw [hc] at h
      cases h
      exact ⟨(choice_ok hc).2.1, (choice_ok hc).2.2⟩
    | err e s1 => rw [hc] at h; cases h
    | timeout => rw [hc] at h; cases h

theorem WF_congr {s s' : St} (h1 : s'.stmts = s.stmts)
    (h2 : s'.nextId = s.nextId) (h : WF s) : WF s' := by
  unfold WF at *
  rw [h1, h2]
  exact h

theorem ValSpec_congr {q : Nat} {s0 s : St} {v : Nat} {s' : St}
    (h1 : s0.stmts = s.stmts) (h2 : s0.nextId = s.nextId)
    (h : ValSpec q s0 v s') : ValSpec q s v s' := by
  unfold ValSpec at h ⊢
  rw [h1, h2] at h
  exact h

theorem add_statement_fst (s : St) (k : StmtKind) (rt : Option PyType)
    (i : Nat) : (s.add_statement k rt i).1 = s.nextId := rfl

theorem add_statement_stmts (s : St) (k : StmtKind) (rt : Option PyType)
    (i : Nat) :
    (s.add_statement k rt i).2.stmts = pyInsert s.stmts i ⟨k, s.nextId, rt, 0⟩ :=
  rfl

theorem add_statement_nextId (s : St) (k : StmtKind) (rt : Option PyType)
    (i : Nat) : (s.add_statement k rt i).2.nextId = s.nextId + 1 := rfl

theorem WF_add_statement {s : St} (hwf : WF s) (k : StmtKind)
    (rt : Option PyType) (i : Nat)
    (hrefs : ∀ r ∈ k.ownedRefs, r ∈ idsBefore s.stmts i) :
    WF (s.add_statement k rt i).2 := by
  constructor
  · rw [add_statement_stmts]
    apply wfFrom_insert _ _ _ _ hwf.1
    intro r hr
    simpa [idsBefore] using hrefs r hr
  · intro st hst
    rw [add_statement_stmts] at hst
    rw [add_statement_nextId]
    rcases mem_pyInsert hst with rfl | hmem
    · simp
    · have := hwf.2 st hmem
      omega

theorem map_upd_eq_self (l : List StmtRec) (ref d : Nat)
    (h : ∀ st ∈ l, st.retId ≠ ref) :
    l.map (fun st => if st.retId = ref then { st with distance := d } else st)
      = l := by
  induction l with
  | nil => rfl
  | cons st rest ih =>
    simp only [List.map_cons, if_neg (h st (List.mem_cons_self st rest))]
    rw [ih fun st2 h2 => h st2 (List.mem_cons_of_mem st h2)]

theorem setDistance_pyInsert {l : List StmtRec} {x : StmtRec} (i d : Nat)
    (hfresh : ∀ st ∈ l, st.retId ≠ x.retId) (s : St)
    (hs : s.stmts = pyInsert l i x) :
    (s.setDistance x.retId d).stmts = pyInsert l i { x with distance := d } ∧
    (s.setDistance x.retId d).nextId = s.nextId := by
  refine ⟨?_, rfl⟩
  simp only [St.setDistance, hs, pyInsert, List.map_append, List.map_cons,
    if_pos rfl, eq_self_iff_true, if_true]
  rw [map_upd_eq_self _ _ _ fun st h2 => hfresh st (List.take_subset i l h2),
    map_upd_eq_self _ _ _ fun st h2 => hfresh st (List.drop_subset i l h2)]

theorem ValSpec_fresh_insert {s : St} (hwf : WF s) {q : Nat} (x : StmtRec)
    (hx : x.retId = s.nextId) (hrefs : ∀ r ∈ x.kind.ownedRefs, r ∈ idsBefore s.stmts q)
    {s' : St} (hstmts : s'.stmts = pyInsert s.stmts q x)
    (hnext : s'.nextId = s.nextId + 1) :
    ValSpec q s x.retId s' ∧ s.nextId ≤ x.retId := by
  refine ⟨⟨?_, ⟨?_, ?_⟩, ?_, ?_⟩, le_of_eq hx.symm⟩
  · exact ⟨[x], by simp [hstmts, pyInsert]⟩
  · rw [hstmts]
    apply wfFrom_insert _ _ _ _ hwf.1
    intro r hr
    simpa [idsBefore] using hrefs r hr
  · intro st hst
    rw [hstmts] at hst
    rw [hnext]
    rcases mem_pyInsert hst with rfl | hmem
    · omega
    · have := hwf.2 st hmem
      omega
  · omega
  · rw [hstmts, pyInsert_length s.stmts q x,
      show s.stmts.length + 1 - s.stmts.length = 1 from by omega,
      idsBefore_pyInsert]
    simp

theorem create_primitive_spec {t : PyType} {q depth : Nat} {s : St} {v : Nat}
    {s' : St} (h : create_primitive t q depth s = .ok v s')
    (hwf : WF s) :
    ValSpec q s v s' ∧ s.nextId ≤ v := by
  simp only [create_primitive] at h
  generalize hmt : (match t with
    | .simple .int => PyType.simple .int
    | .simple .float => PyType.simple .float
    | .simple .bool => PyType.simple .bool
    | _ => PyType.simple .str) = t2 at h
  rw [add_statement_fst] at h
  cases h
  set x : StmtRec := ⟨.primitiveLit t2, s.nextId, some t2, 0⟩ with hxdef
  have hfresh : ∀ st ∈ s.stmts, st.retId ≠ x.retId := by
    intro st hst
    have := hwf.2 st hst
    simp only [hxdef]
    omega
  obtain ⟨h1, h2⟩ := setDistance_pyInsert q depth hfresh
    (s.add_statement (.primitiveLit t2) (some t2) q).2
    (add_statement_stmts s _ _ q)
  have := ValSpec_fresh_insert hwf { x with distance := depth }
    (by simp [hxdef]) (by simp [hxdef, StmtKind.ownedRefs]) h1 rfl
  simpa [hxdef] using this

theorem create_none_spec {pt : Option PyType} {q depth : Nat} {s : St}
    {v : Nat} {s' : St} (h : create_none pt q depth s = .ok v s')
    (hwf : WF s) :
    ValSpec q s v s' ∧ s.nextId ≤ v := by
  simp only [create_none, add_statement_stmts] at h
  by_cases hq : q ≤ s.stmts.length
  · have hget : (pyInsert s.stmts q ⟨.noneLit, s.nextId, pt, 0⟩)[q]?
        = some ⟨.noneLit, s.nextId, pt, 0⟩ := by
      have hT : (s.stmts.take q).length = q := by
        rw [List.length_take]; omega
      rw [pyInsert, List.getElem?_append_right (by omega), hT]
      simp
    rw [hget] at h
    cases h
    set x : StmtRec := ⟨.noneLit, s.nextId, pt, 0⟩ with hxdef
    have hfresh : ∀ st ∈ s.stmts, st.retId ≠ x.retId := by
      intro st hst
      have := hwf.2 st hst
      simp only [hxdef]
      omega
    obtain ⟨h1, h2⟩ := setDistance_pyInsert q depth hfresh
      (s.add_statement .noneLit pt q).2 (add_statement_stmts s _ _ q)
    have := ValSpec_fresh_insert hwf { x with distance := depth }
      (by simp [hxdef]) (by simp [hxdef, StmtKind.ownedRefs]) h1 rfl
    simpa [hxdef] using this
  · exfalso
    have hlen : (pyInsert s.stmts q ⟨.noneLit, s.nextId, pt, 0⟩).length
        = s.stmts.length + 1 := pyInsert_length _ _ _
    have hget : (pyInsert s.stmts q ⟨.noneLit, s.nextId, pt, 0⟩)[q]? = none := by
      rw [List.getElem?_eq_none]
      omega
    rw [hget] at h
    cases h

/-! ### The master induction: each engine function preserves the
dependency-order invariant and returns references defined before the
caller's insertion frontier -/

theorem normPos_coe (q len : Nat) : normPos (q : Int) len = q := by
  rw [normPos, if_neg (by omega), Int.toNat_natCast]

theorem normPos_if (position : Int) (len : Nat) :
    normPos (if position == -1 then (len : Int) else position) len
      = normPos position len := by
  by_cases h : position = -1
  · rw [h]
    simp [normPos]
  · rw [if_neg (by simpa using h)]

theorem finish_insert {s s1 : St} {q : Nat} (hwf1 : WF s1)
    (hFrame : Frame q s.stmts s1.stmts) (hN : s.nextId ≤ s1.nextId)
    (k : StmtKind) (rt : Option PyType)
    (hrefs : ∀ r ∈ k.ownedRefs,
      r ∈ idsBefore s1.stmts (q + (s1.stmts.length - s.stmts.length))) :
    ValSpec q s
      (s1.add_statement k rt (q + (s1.stmts.length - s.stmts.length))).1
      (s1.add_statement k rt (q + (s1.stmts.length - s.stmts.length))).2 ∧
    s.nextId ≤
      (s1.add_statement k rt (q + (s1.stmts.length - s.stmts.length))).1 := by
  have hle : s.stmts.length ≤ s1.stmts.length := hFrame.length_le
  refine ⟨⟨?_, ?_, ?_, ?_⟩, ?_⟩
  · have hsingle : Frame (q + (s1.stmts.length - s.stmts.length)) s1.stmts
        (s1.add_statement k rt (q + (s1.stmts.length - s.stmts.length))).2.stmts := by
      rw [add_statement_stmts]
      exact Frame.single s1.stmts _ _
    exact hFrame.trans_at hsingle (by omega) (by omega)
  · exact WF_add_statement hwf1 k rt _ hrefs
  · rw [add_statement_nextId]
    omega
  · rw [add_statement_stmts, add_statement_fst, pyInsert_length]
    have harith : q + (s1.stmts.length + 1 - s.stmts.length)
        = (q + (s1.stmts.length - s.stmts.length)) + 1 := by omega
    rw [harith, idsBefore_pyInsert]
    simp
  · rw [add_statement_fst]
    exact hN

theorem ctor_step (E : Env) (fuel : Nat) (ihSat : SatOK E fuel) :
    CtorOK E (fuel + 1) := by
  intro c position recursionDepth allowNone s v s' hwf h
  simp only [add_constructor] at h
  split at h
  · exact Res.noConfusion h
  · cases hsat : satisfy_parameters E fuel c.parameters none
        ((normPos position s.stmts.length : Nat) : Int) (recursionDepth + 1)
        allowNone true s with
    | ok params s1 =>
      rw [hsat] at h
      simp only [St.add_statement] at h
      cases h
      obtain ⟨⟨hFrame, hWF1, hN1, hRefs⟩, _, _⟩ :=
        ihSat _ _ _ _ _ _ _ _ _ hwf hsat
      rw [normPos_coe] at hFrame hRefs
      exact finish_insert hWF1 hFrame hN1
        (.constructorCall c.ctorId params)
        (some (.simple (.cls c.ownerClass)))
        (by simpa [StmtKind.ownedRefs] using hRefs)
    | err e s1 => rw [hsat] at h; exact Res.noConfusion h
    | timeout => rw [hsat] at h; exact Res.noConfusion h

theorem func_step (E : Env) (fuel : Nat) (ihSat : SatOK E fuel) :
    FuncOK E (fuel + 1) := by
  intro f position recursionDepth allowNone s v s' hwf h
  simp only [add_function] at h
  split at h
  · exact Res.noConfusion h
  · cases hsat : satisfy_parameters E fuel f.parameters none
        ((normPos position s.stmts.length : Nat) : Int) (recursionDepth + 1)
        allowNone true s with
    | ok params s1 =>
      rw [hsat] at h
      simp only [St.add_statement] at h
      cases h
      obtain ⟨⟨hFrame, hWF1, hN1, hRefs⟩, _, _⟩ :=
        ihSat _ _ _ _ _ _ _ _ _ hwf hsat
      rw [normPos_coe] at hFrame hRefs
      exact finish_insert hWF1 hFrame hN1 (.functionCall f.funcId params)
        f.retType (by simpa [StmtKind.ownedRefs] using hRefs)
    | err e s1 => rw [hsat] at h; exact Res.noConfusion h
    | timeout => rw [hsat] at h; exact Res.noConfusion h

theorem field_step (E : Env) (fuel : Nat) (ihCor : CorOK E fuel) :
    FieldOK E (fuel + 1) := by
  intro f position recursionDepth s v s' hwf h
  simp only [add_field] at h
  split at h
  · exact Res.noConfusion h
  · cases hc : create_or_reuse_variable E fuel (some f.owner)
        (normPos position s.stmts.length) recursionDepth false none s with
    | ok callee s1 =>
      rw [hc] at h
      simp only [St.add_statement] at h
      cases h
      obtain ⟨hFrame, hWF1, hN1, hRef⟩ := ihCor _ _ _ _ _ _ _ _ hwf hc
      exact finish_insert hWF1 hFrame hN1 (.fieldAccess f.fieldId callee)
        f.fieldType (by simpa [StmtKind.ownedRefs] using hRef)
    | err e s1 => rw [hc] at h; exact Res.noConfusion h
    | timeout => rw [hc] at h; exact Res.noConfusion h

theorem method_step (E : Env) (fuel : Nat) (ihCor : CorOK E fuel)
    (ihSat : SatOK E fuel) : MethodOK E (fuel + 1) := by
  intro m position recursionDepth allowNone s v s' hwf h
  simp only [add_method] at h
  split at h
  · exact Res.noConfusion h
  · cases hc : create_or_reuse_variable E fuel (some m.owner)
        (normPos position s.stmts.length) recursionDepth true none s with
    | ok callee s1 =>
      simp only [hc] at h
      cases hsat : satisfy_parameters E fuel m.parameters none
          ((normPos position s.stmts.length : Nat) : Int) (recursionDepth + 1)
          allowNone true s1 with
      | ok params s2 =>
        simp only [hsat, St.add_statement] at h
        cases h
        obtain ⟨hF1, hW1, hN1, hRefC⟩ := ihCor _ _ _ _ _ _ _ _ hwf hc
        obtain ⟨⟨hF2, hW2, hN2, hRefs⟩, _, _⟩ :=
          ihSat _ _ _ _ _ _ _ _ _ hW1 hsat
        rw [normPos_coe] at hF2 hRefs
        have hle1 : s.stmts.length ≤ s1.stmts.length := hF1.length_le
        have hle2 : s1.stmts.length ≤ s2.stmts.length := hF2.length_le
        have hFrame : Frame (normPos position s.stmts.length) s.stmts s2.stmts :=
          hF1.trans_at hF2 (le_refl _) (by omega)
        refine finish_insert hW2 hFrame (hN1.trans hN2)
          (.methodCall m.methodId callee params) m.retType ?_
        intro r hr
        simp only [StmtKind.ownedRefs, List.mem_cons] at hr
        rcases hr with rfl | hr
        · have := hF2.idsBefore_le
            (Nat.le_add_right (normPos position s.stmts.length)
              (s1.stmts.length - s.stmts.length)) r hRefC
          have harith : normPos position s.stmts.length +
              (s1.stmts.length - s.stmts.length) +
              (s2.stmts.length - s1.stmts.length)
              = normPos position s.stmts.length +
                (s2.stmts.length - s.stmts.length) := by omega
          rwa [harith] at this
        · refine idsBefore_mono ?_ r (hRefs r hr)
          omega
      | err e s2 => simp [hsat] at h
      | timeout => simp [hsat] at h
    | err e s1 => simp [hc] at h
    | timeout => simp [hc] at h

theorem append_step (E : Env) (fuel : Nat) (ihCtor : CtorOK E fuel)
    (ihMethod : MethodOK E fuel) (ihField : FieldOK E fuel)
    (ihFunc : FuncOK E fuel) : AppendOK E (fuel + 1) := by
  intro g position recursionDepth allowNone s v s' hwf h
  simp only [append_generic_statement] at h
  cases g with
  | ctorObj c =>
    have := ihCtor _ _ _ _ _ _ _ hwf h
    rwa [normPos_if] at this
  | methodObj m =>
    have := ihMethod _ _ _ _ _ _ _ hwf h
    rwa [normPos_if] at this
  | funcObj f =>
    have := ihFunc _ _ _ _ _ _ _ hwf h
    rwa [normPos_if] at this
  | fieldObj f =>
    have := ihField _ _ _ _ _ _ hwf h
    rwa [normPos_if] at this

theorem sat_step (E : Env) (fuel : Nat) (ihLoop : LoopOK E fuel) :
    SatOK E (fuel + 1) := by
  intro pts callee position recursionDepth allowNone canReuse s vs s' hwf h
  simp only [satisfy_parameters] at h
  exact ihLoop _ _ _ _ _ _ _ _ _ hwf h

theorem loop_step (E : Env) (fuel : Nat) (ihCor : CorOK E fuel)
    (ihCvar : CvarOK E fuel) (ihLoop : LoopOK E fuel) :
    LoopOK E (fuel + 1) := by
  intro pts callee position recursionDepth allowNone canReuse s vs s' hwf h
  cases pts with
  | nil =>
    simp only [satisfy_loop] at h
    cases h
    exact ⟨⟨Frame.refl _ _, hwf, le_refl _, by simp⟩, fun _ => by simp, rfl⟩
  | cons t rest =>
    simp only [satisfy_loop] at h
    have main : ∀ v0 s1, ValSpec position s v0 s1 →
        (canReuse = false → s.nextId ≤ v0) →
        (match satisfy_loop E fuel rest callee
            (position + (s1.stmts.length - s.stmts.length)) recursionDepth
            allowNone canReuse s1 with
          | Res.ok vs s2 => Res.ok (v0 :: vs) s2
          | Res.err e s2 => Res.err e s2
          | Res.timeout => Res.timeout) = Res.ok vs s' →
        ListSpec position s vs s' ∧
          (canReuse = false → ∀ v ∈ vs, s.nextId ≤ v) ∧
          vs.length = (t :: rest).length := by
      intro v0 s1 hval hfr0 hh
      obtain ⟨hF1, hW1, hN1, hRef0⟩ := hval
      cases hloop : satisfy_loop E fuel rest callee
          (position + (s1.stmts.length - s.stmts.length)) recursionDepth
          allowNone canReuse s1 with
      | ok vs1 s2 =>
        rw [hloop] at hh
        injection hh with h1 h2
        subst h1
        subst h2
        obtain ⟨⟨hF2, hW2, hN2, hRefs⟩, hfr, hlen⟩ :=
          ihLoop _ _ _ _ _ _ _ _ _ hW1 hloop
        have hle1 : s.stmts.length ≤ s1.stmts.length := hF1.length_le
        have hle2 : s1.stmts.length ≤ s2.stmts.length := hF2.length_le
        have harith : position + (s1.stmts.length - s.stmts.length) +
            (s2.stmts.length - s1.stmts.length)
            = position + (s2.stmts.length - s.stmts.length) := by omega
        refine ⟨⟨hF1.trans_at hF2 (by omega) (by omega), hW2, hN1.trans hN2,
          ?_⟩, ?_, by simpa using hlen⟩
        · intro w hw
          rcases List.mem_cons.mp hw with rfl | hw
          · have := hF2.idsBefore_le (by omega) w hRef0
            rwa [harith] at this
          · have := hRefs w hw
            rwa [harith] at this
        · intro hcr w hw
          rcases List.mem_cons.mp hw with rfl | hw
          · exact hfr0 hcr
          · exact hN1.trans (hfr hcr w hw)
      | err e s2 => rw [hloop] at hh; exact Res.noConfusion hh
      | timeout => rw [hloop] at hh; exact Res.noConfusion hh
    cases canReuse with
    | true =>
      cases hc : create_or_reuse_variable E fuel t position recursionDepth
          allowNone callee s with
      | ok v0 s1 =>
        simp only [hc, if_true] at h
        exact main v0 s1 (ihCor _ _ _ _ _ _ _ _ hwf hc)
          (fun hcr => Bool.noConfusion hcr) h
      | err e s1 => simp [hc] at h
      | timeout => simp [hc] at h
    | false =>
      cases hcv : create_variable E fuel t position recursionDepth allowNone
          callee s with
      | ok r s1 =>
        simp only [hcv, if_false] at h
        cases r with
        | none => exact Res.noConfusion h
        | some v0 =>
          have hspec := ihCvar _ _ _ _ _ _ _ _ hwf hcv
          exact main v0 s1 hspec.1 (fun _ => hspec.2) h
      | err e s1 => simp [hcv] at h
      | timeout => simp [hcv] at h

theorem reuse_spec {position : Nat} {s sa : St} (hstmts : sa.stmts = s.stmts)
    (hids : sa.nextId = s.nextId) (hwf : WF s) {l : List Nat}
    (hsub : ∀ w ∈ l, w ∈ idsBefore s.stmts position) {v : Nat} {s' : St}
    (h : choice l sa = .ok v s') : ValSpec position s v s' := by
  obtain ⟨hv, hst, hid⟩ := choice_ok h
  have hs' : s'.stmts = s.stmts := hst.trans hstmts
  have hid' : s'.nextId = s.nextId := hid.trans hids
  refine ⟨?_, WF_congr hs' hid' hwf, le_of_eq hid'.symm, ?_⟩
  · rw [Frame, hs']
    exact ⟨[], by simp⟩
  · rw [hs', Nat.sub_self, Nat.add_zero]
    exact hsub v hv

theorem cvar_step (E : Env) (fuel : Nat) (ihAgen : AgenOK E fuel) :
    CvarOK E (fuel + 1) := by
  intro pt position recursionDepth allowNone exclude s r s' hwf h
  simp only [create_variable] at h
  exact ihAgen _ _ _ _ _ _ _ _ hwf h

theorem agentype_step (E : Env) (fuel : Nat) (ihAppend : AppendOK E fuel) :
    AgenForTypeOK E (fuel + 1) := by
  intro position recursionDepth allowNone typeGenerators s v s' hwf h
  simp only [attempt_generation_for_type] at h
  split at h
  · rename_i g s1 heq
    obtain ⟨_, hst, hid⟩ := choice_ok heq
    have hwf1 : WF s1 := WF_congr hst hid hwf
    obtain ⟨hval, hfresh⟩ := ihAppend _ _ _ _ _ _ _ hwf1 h
    rw [normPos_coe] at hval
    exact ⟨ValSpec_congr hst hid hval, hid ▸ hfresh⟩
  · exact Res.noConfusion h
  · exact Res.noConfusion h

theorem randtype_step (E : Env) (fuel : Nat) (ihCor : CorOK E fuel) :
    RandTypeOK E (fuel + 1) := by
  intro position recursionDepth allowNone s v s' hwf h
  simp only [create_random_type_variable] at h
  split at h
  · rename_i t s1 heq
    obtain ⟨_, hst, hid⟩ := choice_ok heq
    have hwf1 : WF s1 := WF_congr hst hid hwf
    exact ValSpec_congr hst hid (ihCor _ _ _ _ _ _ _ _ hwf1 h)
  · exact Res.noConfusion h
  · exact Res.noConfusion h

theorem agen_step (E : Env) (fuel : Nat) (ihAgenType : AgenForTypeOK E fuel) :
    AgenOK E (fuel + 1) := by
  intro pt position recursionDepth allowNone exclude s r s' hwf h
  cases pt with
  | none =>
    simp only [attempt_generation] at h
    cases h
    exact ⟨rfl, rfl, hwf⟩
  | some t =>
    simp only [attempt_generation] at h
    split at h
    · cases hcp : create_primitive t position recursionDepth s with
      | ok u s1 =>
        simp only [hcp] at h
        cases h
        exact create_primitive_spec hcp hwf
      | err e s1 => simp [hcp] at h
      | timeout => simp [hcp] at h
    · cases hg : E.cluster.get_generators_for t with
      | nil =>
        simp only [hg] at h
        split at h
        · simp only [St.next_float] at h
          split at h
          · split at h
            · rename_i u s2 heq
              cases h
              have hcn := create_none_spec heq (WF_congr rfl rfl hwf)
              exact ⟨ValSpec_congr rfl rfl hcn.1, hcn.2⟩
            · exact Res.noConfusion h
            · exact Res.noConfusion h
          · cases h
            exact ⟨rfl, rfl, hwf⟩
        · cases h
          exact ⟨rfl, rfl, hwf⟩
      | cons g gs =>
        simp only [hg] at h
        split at h
        · rename_i u s1 heq
          cases h
          exact ihAgenType _ _ _ _ _ _ _ hwf heq
        · exact Res.noConfusion h
        · exact Res.noConfusion h

theorem cor_step (E : Env) (fuel : Nat) (ihCvar : CvarOK E fuel)
    (ihRand : RandTypeOK E fuel) : CorOK E (fuel + 1) := by
  intro parameterType position recursionDepth allowNone exclude s v s' hwf h
  simp only [create_or_reuse_variable] at h
  cases hsel : select_from_union parameterType s with
  | err e s0 => simp [hsel] at h
  | timeout => simp [hsel] at h
  | ok pt1 s0 =>
    simp only [hsel, St.next_float] at h
    obtain ⟨hst0, hid0⟩ := select_from_union_ok hsel
    have hobj : ∀ w ∈ get_objects s0.stmts pt1 position,
        w ∈ idsBefore s.stmts position :=
      fun w hw => hst0 ▸ get_objects_subset w hw
    have hwrec : WF (⟨s0.stmts, s0.nextId,
        ⟨s0.rand.floats.tail, s0.rand.choices⟩⟩ : St) :=
      WF_congr hst0 hid0 hwf
    split at h
    · refine reuse_spec ?_ ?_ hwf hobj h
      · exact hst0
      · exact hid0
    · split at h
      · refine reuse_spec ?_ ?_ hwf hobj h
        · exact hst0
        · exact hid0
      · split at h
        · -- untyped-parameter fallback: anyVars is the list of all
          -- earlier references
          split at h
          · refine reuse_spec ?_ ?_ hwf (fun w hw => ?_) h
            · exact hst0
            · exact hid0
            · rw [← hst0]
              exact hw
          · split at h
            · rename_i created s2 heq
              cases h
              exact ValSpec_congr hst0 hid0
                (ihCvar _ _ _ _ _ _ _ _ hwrec heq).1
            · rename_i s2 heq
              obtain ⟨hs2, hi2, hw2⟩ :=
                ihCvar _ _ _ _ _ _ _ _ hwrec heq
              have hwrec2 : WF (⟨s2.stmts, s2.nextId,
                  ⟨s2.rand.floats.tail, s2.rand.choices⟩⟩ : St) :=
                WF_congr rfl rfl hw2
              split at h
              · split at h
                · have hrand := ihRand _ _ _ _ _ _ hwrec2 h
                  exact ValSpec_congr (hs2.trans hst0) (hi2.trans hid0) hrand
                · split at h
                  · have hcn := create_none_spec h hwrec2
                    exact ValSpec_congr (hs2.trans hst0) (hi2.trans hid0) hcn.1
                  · exact Res.noConfusion h
              · refine reuse_spec ?_ ?_ hwf hobj h
                · exact hs2.trans hst0
                · exact hi2.trans hid0
            · exact Res.noConfusion h
            · exact Res.noConfusion h
        · split at h
          · rename_i hne
            exact absurd rfl hne
          · split at h
            · rename_i created s2 heq
              cases h
              exact ValSpec_congr hst0 hid0
                (ihCvar _ _ _ _ _ _ _ _ hwrec heq).1
            · rename_i s2 heq
              obtain ⟨hs2, hi2, hw2⟩ :=
                ihCvar _ _ _ _ _ _ _ _ hwrec heq
              have hwrec2 : WF (⟨s2.stmts, s2.nextId,
                  ⟨s2.rand.floats.tail, s2.rand.choices⟩⟩ : St) :=
                WF_congr rfl rfl hw2
              split at h
              · split at h
                · have hrand := ihRand _ _ _ _ _ _ hwrec2 h
                  exact ValSpec_congr (hs2.trans hst0) (hi2.trans hid0) hrand
                · split at h
                  · have hcn := create_none_spec h hwrec2
                    exact ValSpec_congr (hs2.trans hst0) (hi2.trans hid0) hcn.1
                  · exact Res.noConfusion h
              · refine reuse_spec ?_ ?_ hwf hobj h
                · exact hs2.trans hst0
                · exact hi2.trans hid0
            · exact Res.noConfusion h
            · exact Res.noConfusion h

theorem engine_zero (E : Env) :
    CtorOK E 0 ∧ MethodOK E 0 ∧ FieldOK E 0 ∧ FuncOK E 0 ∧ AppendOK E 0 ∧
    SatOK E 0 ∧ LoopOK E 0 ∧ CorOK E 0 ∧ CvarOK E 0 ∧ AgenOK E 0 ∧
    AgenForTypeOK E 0 ∧ RandTypeOK E 0 := by
  refine ⟨?_, ?_, ?_, ?_, ?_, ?_, ?_, ?_, ?_, ?_, ?_, ?_⟩
  · intro c position recursionDepth allowNone s v s' hwf h
    simp [add_constructor] at h
  · intro m position recursionDepth allowNone s v s' hwf h
    simp [add_method] at h
  · intro f position recursionDepth s v s' hwf h
    simp [add_field] at h
  · intro f position recursionDepth allowNone s v s' hwf h
    simp [add_function] at h
  · intro g position recursionDepth allowNone s v s' hwf h
    simp [append_generic_statement] at h
  · intro pts callee position recursionDepth allowNone canReuse s vs s' hwf h
    simp [satisfy_parameters] at h
  · intro pts callee position recursionDepth allowNone canReuse s vs s' hwf h
    simp [satisfy_loop] at h
  · intro pt position recursionDepth allowNone exclude s v s' hwf h
    simp [create_or_reuse_variable] at h
  · intro pt position recursionDepth allowNone exclude s r s' hwf h
    simp [create_variable] at h
  · intro pt position recursionDepth allowNone exclude s r s' hwf h
    simp [attempt_generation] at h
  · intro position recursionDepth allowNone typeGenerators s v s' hwf h
    simp [attempt_generation_for_type] at h
  · intro position recursionDepth allowNone s v s' hwf h
    simp [create_random_type_variable] at h

theorem engine_ok (E : Env) (fuel : Nat) :
    CtorOK E fuel ∧ MethodOK E fuel ∧ FieldOK E fuel ∧ FuncOK E fuel ∧
    AppendOK E fuel ∧ SatOK E fuel ∧ LoopOK E fuel ∧ CorOK E fuel ∧
    CvarOK E fuel ∧ AgenOK E fuel ∧ AgenForTypeOK E fuel ∧
    RandTypeOK E fuel := by
  induction fuel with
  | zero => exact engine_zero E
  | succ fuel ih =>
    obtain ⟨hCtor, hMethod, hField, hFunc, hAppend, hSat, hLoop, hCor, hCvar,
      hAgen, hAgenT, hRand⟩ := ih
    exact ⟨ctor_step E fuel hSat, method_step E fuel hCor hSat,
      field_step E fuel hCor, func_step E fuel hSat,
      append_step E fuel hCtor hMethod hField hFunc,
      sat_step E fuel hLoop, loop_step E fuel hCor hCvar hLoop,
      cor_step E fuel hCvar hRand, cvar_step E fuel hAgen,
      agen_step E fuel hAgenT, agentype_step E fuel hAppend,
      randtype_step E fuel hCor⟩

/-! ### Claim theorems -/

theorem satisfy_loop_length (E : Env) : ∀ (fuel : Nat) pts callee position
    recursionDepth allowNone canReuse (s : St) vs s',
    satisfy_loop E fuel pts callee position recursionDepth allowNone canReuse s
      = .ok vs s' → vs.length = pts.length := by
  intro fuel
  induction fuel with
  | zero =>
    intro pts callee q depth an cr s vs s' h
    simp [satisfy_loop] at h
  | succ fuel ih =>
    intro pts callee q depth an cr s vs s' h
    cases pts with
    | nil =>
      simp only [satisfy_loop] at h
      cases h
      rfl
    | cons t rest =>
      simp only [satisfy_loop] at h
      split at h
      · exact Res.noConfusion h
      · split at h
        · rename_i vs1 s2 heq
          cases h
          simpa using ih _ _ _ _ _ _ _ _ _ heq
        · exact Res.noConfusion h
        · exact Res.noConfusion h
      · exact Res.noConfusion h
      · exact Res.noConfusion h

/-- C1 counterexample: `add_primitive` performs no recursion-ceiling
check — it does not even take a recursion depth.  With the configured
`max_recursion = 0` (so that any positive depth exceeds the ceiling),
a call on the empty test case returns normally instead of raising a
construction failure, and it grows the test case by one statement
instead of leaving it unchanged. -/
theorem C1_add_primitive_never_fails_counterexample :
    EW.cfg.max_recursion = 0 ∧ 1 > EW.cfg.max_recursion ∧
    (add_primitive sEmpty (.simple .int) (-1)).isOk = true ∧
    (add_primitive sEmpty (.simple .int) (-1)).stmtCount
      = sEmpty.stmts.length + 1 := by
  with_unfolding_all decide

/-- C1 (amended): for `add_constructor`, `add_method`, `add_function`
and `add_field` — the four `add_*` operations that take a recursion
depth — a call with `recursion_depth > max_recursion` raises the
max-recursion construction failure and leaves the whole state, in
particular the test case's size and statements, unchanged.
(`add_primitive` takes no recursion depth, performs no ceiling check
and never fails.) -/
theorem C1_recursion_ceiling_amended (E : Env) (fuel : Nat)
    (hfuel : 0 < fuel) (c : GenericConstructor) (m : GenericMethod)
    (f : GenericField) (g : GenericFunction) (position : Int)
    (recursionDepth : Nat) (allowNone : Bool) (s : St)
    (hdepth : recursionDepth > E.cfg.max_recursion) :
    add_constructor E fuel c position recursionDepth allowNone s
      = .err .maxRecursionDepth s ∧
    add_method E fuel m position recursionDepth allowNone s
      = .err .maxRecursionDepth s ∧
    add_function E fuel g position recursionDepth allowNone s
      = .err .maxRecursionDepth s ∧
    add_field E fuel f position recursionDepth s
      = .err .maxRecursionDepth s := by
  obtain ⟨fuel, rfl⟩ : ∃ k, fuel = k + 1 := ⟨fuel - 1, by omega⟩
  refine ⟨?_, ?_, ?_, ?_⟩
  · simp [add_constructor, hdepth]
  · simp [add_method, hdepth]
  · simp [add_function, hdepth]
  · simp [add_field, hdepth]

/-- Witness for the amended C1 at a concrete input. -/
theorem C1_recursion_ceiling_amended_witness :
    (0 < 1 ∧ 1 > EW.cfg.max_recursion) ∧
    (add_constructor EW 1 ctorW (-1) 1 true sEmpty
        = .err .maxRecursionDepth sEmpty ∧
      add_method EW 1 ⟨0, .simple (.cls 0), [], none⟩ (-1) 1 true sEmpty
        = .err .maxRecursionDepth sEmpty ∧
      add_function EW 1 ⟨0, [], none⟩ (-1) 1 true sEmpty
        = .err .maxRecursionDepth sEmpty ∧
      add_field EW 1 ⟨0, .simple (.cls 0), none⟩ (-1) 1 sEmpty
        = .err .maxRecursionDepth sEmpty) :=
  ⟨⟨by with_unfolding_all decide, by with_unfolding_all decide⟩,
   C1_recursion_ceiling_amended EW 1 (by with_unfolding_all decide) ctorW
     ⟨0, .simple (.cls 0), [], none⟩ ⟨0, .simple (.cls 0), none⟩
     ⟨0, [], none⟩ (-1) 1 true sEmpty (by with_unfolding_all decide)⟩

/-- C2: starting from a well-formed test case, every successful
`add_constructor`, `add_method`, `add_function` or `add_field` call
leaves the test case well-formed and in dependency order: every
variable reference owned by every statement — the inserted statement's
arguments and receiver included, also those produced transitively by
`satisfy_parameters` — has a defining position strictly less than the
owning statement's own final position. -/
theorem C2_dependency_order_preserved (E : Env) (fuel : Nat) (s : St)
    (hwf : WF s) :
    (∀ c position recursionDepth allowNone v s',
      add_constructor E fuel c position recursionDepth allowNone s = .ok v s' →
      WF s' ∧ depOrder s'.stmts) ∧
    (∀ m position recursionDepth allowNone v s',
      add_method E fuel m position recursionDepth allowNone s = .ok v s' →
      WF s' ∧ depOrder s'.stmts) ∧
    (∀ g position recursionDepth allowNone v s',
      add_function E fuel g position recursionDepth allowNone s = .ok v s' →
      WF s' ∧ depOrder s'.stmts) ∧
    (∀ f position recursionDepth v s',
      add_field E fuel f position recursionDepth s = .ok v s' →
      WF s' ∧ depOrder s'.stmts) := by
  obtain ⟨hC, hM, hF, hG, _⟩ := engine_ok E fuel
  refine ⟨?_, ?_, ?_, ?_⟩
  · intro c position recursionDepth allowNone v s' h
    obtain ⟨⟨_, hwf', _, _⟩, _⟩ := hC _ _ _ _ _ _ _ hwf h
    exact ⟨hwf', depOrder_of_wfFrom hwf'.1⟩
  · intro m position recursionDepth allowNone v s' h
    obtain ⟨⟨_, hwf', _, _⟩, _⟩ := hM _ _ _ _ _ _ _ hwf h
    exact ⟨hwf', depOrder_of_wfFrom hwf'.1⟩
  · intro g position recursionDepth allowNone v s' h
    obtain ⟨⟨_, hwf', _, _⟩, _⟩ := hG _ _ _ _ _ _ _ hwf h
    exact ⟨hwf', depOrder_of_wfFrom hwf'.1⟩
  · intro f position recursionDepth v s' h
    obtain ⟨⟨_, hwf', _, _⟩, _⟩ := hF _ _ _ _ _ _ hwf h
    exact ⟨hwf', depOrder_of_wfFrom hwf'.1⟩

/-- Witness for C2: the spec's Scenario A run concretely — an empty
test case, a constructor with one `int` parameter; the engine appends
the literal then the constructor, and the result is in dependency
order. -/
theorem C2_dependency_order_preserved_witness :
    WF sEmpty ∧ (WF sC2res ∧ depOrder sC2res.stmts) :=
  ⟨by with_unfolding_all decide,
   (C2_dependency_order_preserved EW 10 sEmpty (by with_unfolding_all decide)).1 ctorW (-1) 0
     true 1 sC2res (by with_unfolding_all decide)⟩

/-- C4: whenever `satisfy_parameters` returns normally, the returned
list holds exactly one variable reference per requested parameter
type, built in the parameters' declaration order; a failure is raised
as an error result, so no partial list is ever returned. -/
theorem C4_satisfy_parameters_count (E : Env) (fuel : Nat)
    (pts : List (Option PyType)) (callee : Option Nat) (position : Int)
    (recursionDepth : Nat) (allowNone canReuse : Bool) (s : St)
    (vs : List Nat) (s' : St)
    (h : satisfy_parameters E fuel pts callee position recursionDepth
      allowNone canReuse s = .ok vs s') :
    vs.length = pts.length := by
  cases fuel with
  | zero => simp [satisfy_parameters] at h
  | succ fuel =>
    simp only [satisfy_parameters] at h
    exact satisfy_loop_length E fuel _ _ _ _ _ _ _ _ _ h

/-- Witness for C4 at a concrete two-parameter request. -/
theorem C4_satisfy_parameters_count_witness :
    satisfy_parameters EW 10 [some (.simple .int), some (.simple .bool)] none
      (-1) 0 true true sEmpty = .ok [0, 1] sC4res ∧
    [0, 1].length
      = [some (PyType.simple .int), some (PyType.simple .bool)].length :=
  ⟨by with_unfolding_all decide,
   C4_satisfy_parameters_count EW 10
     [some (.simple .int), some (.simple .bool)] none (-1) 0 true true sEmpty
     [0, 1]
     sC4res (by with_unfolding_all decide)⟩

/-- C8: a successful `satisfy_parameters` call with
`can_reuse_existing_variables = False` returns only references created
by statements inserted during the call: none of the returned
references is the reference of any statement that was in the test case
before the call. -/
theorem C8_forced_creation_fresh (E : Env) (fuel : Nat)
    (pts : List (Option PyType)) (callee : Option Nat) (position : Int)
    (recursionDepth : Nat) (allowNone : Bool) (s : St) (vs : List Nat)
    (s' : St) (hwf : WF s)
    (h : satisfy_parameters E fuel pts callee position recursionDepth
      allowNone false s = .ok vs s') :
    ∀ v ∈ vs, v ∉ s.stmts.map (·.retId) := by
  obtain ⟨_, _, _, _, _, hSat, _⟩ := engine_ok E fuel
  obtain ⟨_, hfresh, _⟩ := hSat _ _ _ _ _ _ _ _ _ hwf h
  intro v hv hmem
  have h1 := hfresh rfl v hv
  simp only [List.mem_map] at hmem
  obtain ⟨st, hst, rfl⟩ := hmem
  have := hwf.2 st hst
  omega

/-- Witness for C8: forced creation of an `int` parameter over a test
case that already holds an `int` reference returns a fresh reference,
not the existing one. -/
theorem C8_forced_creation_fresh_witness :
    (WF sOne ∧
      satisfy_parameters EW 10 [some (.simple .int)] none (-1) 0 true false
        sOne = .ok [1] sC8res) ∧
    ∀ v ∈ [1], v ∉ sOne.stmts.map (·.retId) :=
  ⟨⟨by with_unfolding_all decide, by with_unfolding_all decide⟩,
   C8_forced_creation_fresh EW 10 [some (.simple .int)] none (-1) 0 true
     sOne [1] sC8res
     (by with_unfolding_all decide) (by with_unfolding_all decide)⟩

/-- C7: inside `add_constructor`, any failure raised during its own
parameter satisfaction (and the subsequent statement insertion, which
the same catch-all covers) is re-raised as a construction failure
naming the constructor, with the original failure as its cause;
`add_method`, `add_function` and `add_field` propagate failures from
their receiver and parameter resolution unwrapped — the original
failure reaches the caller unchanged. -/
theorem C7_failure_wrapping (E : Env) (fuel : Nat) :
    (∀ (c : GenericConstructor) position recursionDepth allowNone (s : St) e s1,
      recursionDepth ≤ E.cfg.max_recursion →
      satisfy_parameters E fuel c.parameters none
        ((normPos position s.stmts.length : Nat) : Int) (recursionDepth + 1)
        allowNone true s = .err e s1 →
      add_constructor E (fuel + 1) c position recursionDepth allowNone s
        = .err (.failedConstructor c.ctorId e) s1) ∧
    (∀ (g : GenericFunction) position recursionDepth allowNone (s : St) e s1,
      recursionDepth ≤ E.cfg.max_recursion →
      satisfy_parameters E fuel g.parameters none
        ((normPos position s.stmts.length : Nat) : Int) (recursionDepth + 1)
        allowNone true s = .err e s1 →
      add_function E (fuel + 1) g position recursionDepth allowNone s
        = .err e s1) ∧
    (∀ (m : GenericMethod) position recursionDepth allowNone (s : St) e s1,
      recursionDepth ≤ E.cfg.max_recursion →
      create_or_reuse_variable E fuel (some m.owner)
        (normPos position s.stmts.length) recursionDepth true none s
        = .err e s1 →
      add_method E (fuel + 1) m position recursionDepth allowNone s
        = .err e s1) ∧
    (∀ (m : GenericMethod) position recursionDepth allowNone (s : St) callee
        s1 e s2,
      recursionDepth ≤ E.cfg.max_recursion →
      create_or_reuse_variable E fuel (some m.owner)
        (normPos position s.stmts.length) recursionDepth true none s
        = .ok callee s1 →
      satisfy_parameters E fuel m.parameters none
        ((normPos position s.stmts.length : Nat) : Int) (recursionDepth + 1)
        allowNone true s1 = .err e s2 →
      add_method E (fuel + 1) m position recursionDepth allowNone s
        = .err e s2) ∧
    (∀ (f : GenericField) position recursionDepth (s : St) e s1,
      recursionDepth ≤ E.cfg.max_recursion →
      create_or_reuse_variable E fuel (some f.owner)
        (normPos position s.stmts.length) recursionDepth false none s
        = .err e s1 →
      add_field E (fuel + 1) f position recursionDepth s = .err e s1) := by
  refine ⟨?_, ?_, ?_, ?_, ?_⟩
  · intro c position recursionDepth allowNone s e s1 hd hsat
    simp only [add_constructor]
    rw [if_neg (by omega)]
    simp only [hsat]
  · intro g position recursionDepth allowNone s e s1 hd hsat
    simp only [add_function]
    rw [if_neg (by omega)]
    simp only [hsat]
  · intro m position recursionDepth allowNone s e s1 hd hc
    simp only [add_method]
    rw [if_neg (by omega)]
    simp only [hc]
  · intro m position recursionDepth allowNone s callee s1 e s2 hd hc hsat
    simp only [add_method]
    rw [if_neg (by omega)]
    simp only [hc, hsat]
  · intro f position recursionDepth s e s1 hd hc
    simp only [add_field]
    rw [if_neg (by omega)]
    simp only [hc]

/-- Witness for C7: a concrete constructor whose only parameter type
has no generators; the inner failure (no objects for the type) is
re-raised wrapped with the constructor's identity. -/
theorem C7_failure_wrapping_witness :
    (0 ≤ EW.cfg.max_recursion ∧
      satisfy_parameters EW 9 [some (.simple (.cls 0))] none
        ((normPos 0 sC7.stmts.length : Nat) : Int) (0 + 1) false true sC7
        = .err (.noObjectsForType (some (.simple (.cls 0)))) sEmpty) ∧
    add_constructor EW 10 ⟨5, 7, [some (.simple (.cls 0))]⟩ 0 0 false sC7
      = .err
        (.failedConstructor 5 (.noObjectsForType (some (.simple (.cls 0)))))
        sEmpty :=
  ⟨⟨by with_unfolding_all decide, by with_unfolding_all decide⟩,
   (C7_failure_wrapping EW 9).1 ⟨5, 7, [some (.simple (.cls 0))]⟩ 0 0 false
     sC7 (.noObjectsForType (some (.simple (.cls 0)))) sEmpty
     (by with_unfolding_all decide) (by with_unfolding_all decide)⟩

/-- C9: `structural_eq` returns `True` exactly when the right operand
is a variable reference whose recorded variable type equals the left
operand's and the remap of the left operand is the right operand.  (A
left operand missing from the remap raises a `KeyError`, modelled as
`none`, which in particular is not a `True` return.) -/
theorem C9_structural_eq_iff (self : VRef) (other : PyVal)
    (memo : List (VRef × VRef)) :
    structural_eq self other memo = some true ↔
      ∃ o, other = .ref o ∧ self.variable_type = o.variable_type ∧
        memo.lookup self = some o := by
  cases other with
  | nonRef => simp [structural_eq]
  | ref o =>
    simp only [structural_eq]
    by_cases hty : self.variable_type = o.variable_type
    · rw [if_pos hty]
      cases hl : memo.lookup self with
      | none => simp [hl, hty]
      | some m => simp [hl, hty]
    · rw [if_neg hty]
      simp only [PyVal.ref.injEq]
      constructor
      · intro hcon
        simp at hcon
      · rintro ⟨o2, rfl, h2, _⟩
        exact absurd h2 hty

/-- C3 counterexample: a single parameter of a class type with zero
generators in the catalog and zero existing objects, requested with
`allow_none = False`, does not always raise: when the fallback draw is
at most `0.85` the engine constructs a value of a random unrelated
known type instead, and the call returns normally with the test case
grown by one statement. -/
theorem C3_unsatisfiable_raises_counterexample :
    EW.cluster.get_generators_for (.simple (.cls 0)) = [] ∧
    get_objects sC3.stmts (some (.simple (.cls 0))) 0 = [] ∧
    sC3.stmts.length = 0 ∧
    (satisfy_parameters EW 10 [some (.simple (.cls 0))] none 0 0 false true
      sC3).isOk = true ∧
    (satisfy_parameters EW 10 [some (.simple (.cls 0))] none 0 0 false true
      sC3).stmtCount = 1 := by
  with_unfolding_all decide

/-- C3 (amended): requesting a single parameter of a class type with
zero generators and zero existing objects before the position, with
`allow_none = False`, raises the no-objects construction failure and
leaves the test case's statements (in particular its length) unchanged
— provided the engine's post-construction fallback draw declines the
random-unrelated-type fallback (the draw exceeds `0.85`); with a draw
of at most `0.85` the random-type fallback runs instead (see the
counterexample). -/
theorem C3_unsatisfiable_raises_amended (E : Env) (k : Nat) (n : Nat)
    (callee : Option Nat) (position : Int) (recursionDepth : Nat) (s : St)
    (f1 f2 : Rat) (r : List Rat)
    (hgen : E.cluster.get_generators_for (.simple (.cls n)) = [])
    (hobj : get_objects s.stmts (some (.simple (.cls n)))
      (normPos position s.stmts.length) = [])
    (hfl : s.rand.floats = f1 :: f2 :: r)
    (hf2 : ¬ f2 ≤ (0.85 : Rat)) :
    satisfy_parameters E (k + 5) [some (.simple (.cls n))] callee position
      recursionDepth false true s
      = .err (.noObjectsForType (some (.simple (.cls n))))
        ⟨s.stmts, s.nextId, ⟨r, s.rand.choices⟩⟩ := by
  simp only [satisfy_parameters, satisfy_loop, create_or_reuse_variable,
    create_variable, attempt_generation, select_from_union, St.next_float,
    hgen, hobj, hfl, is_primitive_type, is_union_type, List.headD, List.tail,
    hf2]
  simp [hf2]

/-- Witness for the amended C3 at a concrete input. -/
theorem C3_unsatisfiable_raises_amended_witness :
    (EW.cluster.get_generators_for (.simple (.cls 0)) = [] ∧
      get_objects sC7.stmts (some (.simple (.cls 0)))
        (normPos 0 sC7.stmts.length) = [] ∧
      sC7.rand.floats = 0 :: 9/10 :: [] ∧ ¬ (9/10 : Rat) ≤ (0.85 : Rat)) ∧
    satisfy_parameters EW 10 [some (.simple (.cls 0))] none 0 0 false true sC7
      = .err (.noObjectsForType (some (.simple (.cls 0))))
        ⟨sC7.stmts, sC7.nextId, ⟨[], sC7.rand.choices⟩⟩ :=
  ⟨⟨by with_unfolding_all decide, by with_unfolding_all decide,
    by with_unfolding_all decide, by with_unfolding_all decide⟩,
   C3_unsatisfiable_raises_amended EW 5 0 none 0 0 sC7 0 (9/10) []
     (by with_unfolding_all decide) (by with_unfolding_all decide)
     (by with_unfolding_all decide) (by with_unfolding_all decide)⟩

/-- C6: with the relevant reuse probability configured to `1.0` (the
primitive one for a primitive requested type, the object one
otherwise) and at least one existing object of the requested type
visible before the position, reuse-or-create resolution returns one of
the existing objects and inserts no statement: the test case's
statements — in particular its size — are unchanged. -/
theorem C6_certain_reuse (E : Env) (k : Nat) (t0 : SimpleType)
    (position recursionDepth : Nat) (allowNone : Bool) (exclude : Option Nat)
    (s : St)
    (hobj : get_objects s.stmts (some (.simple t0)) position ≠ [])
    (hprob : (if is_primitive_type (some (.simple t0)) then
        E.cfg.primitive_reuse_probability
      else E.cfg.object_reuse_probability) = 1)
    (hfl : s.rand.floats.headD 0 ≤ 1) :
    ∃ v s', create_or_reuse_variable E (k + 1) (some (.simple t0)) position
        recursionDepth allowNone exclude s = .ok v s' ∧
      v ∈ get_objects s.stmts (some (.simple t0)) position ∧
      s'.stmts = s.stmts := by
  simp only [create_or_reuse_variable, select_from_union, St.next_float]
  have hchoice : ∀ s1 : St,
      get_objects s.stmts (some (.simple t0)) position ≠ [] →
      ∃ v s', choice (get_objects s.stmts (some (.simple t0)) position) s1
          = .ok v s' ∧
        v ∈ get_objects s.stmts (some (.simple t0)) position ∧
        s'.stmts = s1.stmts := by
    intro s1 hne
    cases hol : get_objects s.stmts (some (.simple t0)) position with
    | nil => exact absurd hol hne
    | cons x xs =>
      exact ⟨_, _, rfl, getD_mem (List.mem_cons_self x xs), rfl⟩
  by_cases hp : is_primitive_type (some (.simple t0)) = true
  · rw [if_pos ⟨hp, hobj, by rw [if_pos hp] at hprob; rw [hprob]; exact hfl⟩]
    exact hchoice _ hobj
  · rw [if_neg (fun hcon => hp hcon.1)]
    rw [if_pos ⟨hp, hobj, by rw [if_neg hp] at hprob; rw [hprob]; exact hfl⟩]
    exact hchoice _ hobj

/-- Witness for C6 at a concrete input: both probabilities `1.0`, one
existing `int` object, a reuse draw of `1/2`. -/
theorem C6_certain_reuse_witness :
    (get_objects sOne.stmts (some (.simple .int)) 1 ≠ [] ∧
      (if is_primitive_type (some (.simple .int)) then
        EW2.cfg.primitive_reuse_probability
      else EW2.cfg.object_reuse_probability) = 1 ∧
      sOne.rand.floats.headD 0 ≤ 1) ∧
    ∃ v s', create_or_reuse_variable EW2 10 (some (.simple .int)) 1 0 true
        none sOne = .ok v s' ∧
      v ∈ get_objects sOne.stmts (some (.simple .int)) 1 ∧
      s'.stmts = sOne.stmts :=
  ⟨⟨by with_unfolding_all decide, by with_unfolding_all decide,
    by with_unfolding_all decide⟩,
   C6_certain_reuse EW2 9 .int 1 0 true none sOne
     (by with_unfolding_all decide) (by with_unfolding_all decide)
     (by with_unfolding_all decide)⟩

/-- C5: when fresh construction yields no value (here: a class type
with no generators, and — when a `None` value is allowed — the
none-probability draw misses) and no existing objects of the type are
visible before the position, `_create_or_reuse_variable` draws one
float: at most `0.85` it delegates to the random-unrelated-type
fallback, which picks a uniformly random type from the catalog's
generator-bearing types extended with the primitive types and resolves
it one recursion level deeper; above `0.85` it synthesizes a
none-literal when `None` is allowed and otherwise raises the
no-objects construction failure. -/
theorem C5_fallback_chain (E : Env) (k : Nat) (n : Nat)
    (position recursionDepth : Nat) (allowNone : Bool) (exclude : Option Nat)
    (s : St) (f1 fnp f2 : Rat) (r : List Rat)
    (hgen : E.cluster.get_generators_for (.simple (.cls n)) = [])
    (hobj : get_objects s.stmts (some (.simple (.cls n))) position = [])
    (hfl : s.rand.floats
      = if allowNone then f1 :: fnp :: f2 :: r else f1 :: f2 :: r)
    (hnp : ¬ fnp ≤ E.cfg.none_probability) :
    (f2 ≤ (0.85 : Rat) →
      create_or_reuse_variable E (k + 3) (some (.simple (.cls n))) position
        recursionDepth allowNone exclude s
      = create_random_type_variable E (k + 2) position recursionDepth
          allowNone ⟨s.stmts, s.nextId, ⟨r, s.rand.choices⟩⟩) ∧
    (¬ f2 ≤ (0.85 : Rat) → allowNone = true →
      create_or_reuse_variable E (k + 3) (some (.simple (.cls n))) position
        recursionDepth allowNone exclude s
      = create_none (some (.simple (.cls n))) position recursionDepth
          ⟨s.stmts, s.nextId, ⟨r, s.rand.choices⟩⟩) ∧
    (¬ f2 ≤ (0.85 : Rat) → allowNone = false →
      create_or_reuse_variable E (k + 3) (some (.simple (.cls n))) position
        recursionDepth allowNone exclude s
      = .err (.noObjectsForType (some (.simple (.cls n))))
          ⟨s.stmts, s.nextId, ⟨r, s.rand.choices⟩⟩) ∧
    (∀ hd tl,
      E.cluster.generators.map Prod.fst ++ PRIMITIVES = hd :: tl →
      create_random_type_variable E (k + 2) position recursionDepth allowNone
        ⟨s.stmts, s.nextId, ⟨r, s.rand.choices⟩⟩
      = create_or_reuse_variable E (k + 1)
          (some ((hd :: tl).getD (s.rand.choices.headD 0 % (hd :: tl).length)
            hd))
          position (recursionDepth + 1) allowNone none
          ⟨s.stmts, s.nextId, ⟨r, s.rand.choices.tail⟩⟩) := by
  have hred : create_or_reuse_variable E (k + 3) (some (.simple (.cls n)))
      position recursionDepth allowNone exclude s
      = if f2 ≤ (0.85 : Rat) then
          create_random_type_variable E (k + 2) position recursionDepth
            allowNone ⟨s.stmts, s.nextId, ⟨r, s.rand.choices⟩⟩
        else if allowNone = true then
          create_none (some (.simple (.cls n))) position recursionDepth
            ⟨s.stmts, s.nextId, ⟨r, s.rand.choices⟩⟩
        else .err (.noObjectsForType (some (.simple (.cls n))))
          ⟨s.stmts, s.nextId, ⟨r, s.rand.choices⟩⟩ := by
    cases allowNone with
    | false =>
      simp only [if_false, Bool.false_eq_true] at hfl
      simp only [create_or_reuse_variable, create_variable,
        attempt_generation, select_from_union, St.next_float, hgen, hobj,
        hfl, is_primitive_type, is_union_type, List.headD, List.tail]
      simp
    | true =>
      simp only [if_true] at hfl
      simp only [create_or_reuse_variable, create_variable,
        attempt_generation, select_from_union, St.next_float, hgen, hobj,
        hfl, is_primitive_type, is_union_type, List.headD, List.tail, hnp]
      simp [hnp]
  refine ⟨?_, ?_, ?_, ?_⟩
  · intro h85
    rw [hred, if_pos h85]
  · intro h85 han
    rw [hred, if_neg h85, han, if_pos rfl]
  · intro h85 han
    rw [hred, if_neg h85, han]
    simp
  · intro hd tl hpool
    simp only [create_random_type_variable, hpool, choice, St.nextChoice]

/-- Witness for C5 at a concrete input: empty catalog, `allow_none`
true, none-probability draw missing, fallback draw `0 ≤ 0.85`. -/
theorem C5_fallback_chain_witness :
    (EW.cluster.get_generators_for (.simple (.cls 0)) = [] ∧
      get_objects sC5.stmts (some (.simple (.cls 0))) 0 = [] ∧
      sC5.rand.floats = (if true then 0 :: 1 :: 0 :: [] else 0 :: 0 :: []) ∧
      ¬ (1 : Rat) ≤ EW.cfg.none_probability) ∧
    (((0 : Rat) ≤ (0.85 : Rat) →
      create_or_reuse_variable EW 10 (some (.simple (.cls 0))) 0 0 true none
        sC5
      = create_random_type_variable EW 9 0 0 true
          ⟨sC5.stmts, sC5.nextId, ⟨[], sC5.rand.choices⟩⟩) ∧
    (¬ (0 : Rat) ≤ (0.85 : Rat) → true = true →
      create_or_reuse_variable EW 10 (some (.simple (.cls 0))) 0 0 true none
        sC5
      = create_none (some (.simple (.cls 0))) 0 0
          ⟨sC5.stmts, sC5.nextId, ⟨[], sC5.rand.choices⟩⟩) ∧
    (¬ (0 : Rat) ≤ (0.85 : Rat) → true = false →
      create_or_reuse_variable EW 10 (some (.simple (.cls 0))) 0 0 true none
        sC5
      = .err (.noObjectsForType (some (.simple (.cls 0))))
          ⟨sC5.stmts, sC5.nextId, ⟨[], sC5.rand.choices⟩⟩) ∧
    (∀ hd tl,
      EW.cluster.generators.map Prod.fst ++ PRIMITIVES = hd :: tl →
      create_random_type_variable EW 9 0 0 true
        ⟨sC5.stmts, sC5.nextId, ⟨[], sC5.rand.choices⟩⟩
      = create_or_reuse_variable EW 8
          (some ((hd :: tl).getD (sC5.rand.choices.headD 0 % (hd :: tl).length)
            hd))
          0 (0 + 1) true none
          ⟨sC5.stmts, sC5.nextId, ⟨[], sC5.rand.choices.tail⟩⟩)) :=
  ⟨⟨by with_unfolding_all decide, by with_unfolding_all decide,
    by with_unfolding_all decide, by with_unfolding_all decide⟩,
   C5_fallback_chain EW 7 0 0 0 true none sC5 0 1 0 []
     (by with_unfolding_all decide) (by with_unfolding_all decide)
     (by with_unfolding_all decide) (by with_unfolding_all decide)⟩

end Pynguin
